import Mathlib

/-!
Verification of the line-classification and transaction-assembly engine of the
2script repository. The Lean definitions below are a shallow embedding of the
Python sources, primarily `src/enhanced_codex.py` (the `clean`, `decomma`,
`norm_date`, `sha1`, `classify`, `is_prev_bill_payoff`, `parse_fx_chunk` and
`parse_txt` functions together with the regular expressions they use), plus the
`calculate_ledger_hash` function and the deduplication step of
`src/script.py`. Monetary amounts are represented as integer cents (the source
quantizes every amount to two decimal places with `Decimal.quantize`), and each
compiled regular expression is hand-compiled into an executable matcher that
follows Python's leftmost, greedy/lazy backtracking semantics on the character
classes that can actually occur in statement lines.
-/

set_option maxRecDepth 100000

namespace Codex

/-- Python's regex whitespace class `\s`, restricted to the ASCII whitespace
characters that can occur in statement lines. -/
def isSpacePy (c : Char) : Bool :=
  c = ' ' || c = '\t' || c = '\n' || c = '\r' || c = '\x0b' || c = '\x0c'

/-- Model of Python `str.lower` on the ASCII and Latin-1 letters used by the
source's keyword tables (characters outside those ranges are unchanged). -/
def lowerPy (c : Char) : Char :=
  if 'A' ≤ c ∧ c ≤ 'Z' then Char.ofNat (c.toNat + 32)
  else if 0xC0 ≤ c.toNat ∧ c.toNat ≤ 0xDE ∧ c.toNat ≠ 0xD7 then Char.ofNat (c.toNat + 32)
  else c

/-- Model of Python `str.upper` on the ASCII and Latin-1 letters used by the
source's keyword tables (characters outside those ranges are unchanged). -/
def upperPy (c : Char) : Char :=
  if 'a' ≤ c ∧ c ≤ 'z' then Char.ofNat (c.toNat - 32)
  else if 0xE0 ≤ c.toNat ∧ c.toNat ≤ 0xFE ∧ c.toNat ≠ 0xF7 then Char.ofNat (c.toNat - 32)
  else c

/-- Lowercase a whole string, character by character. -/
def lowerStr (s : String) : String := String.mk (s.toList.map lowerPy)

/-- Uppercase a whole string, character by character. -/
def upperStr (s : String) : String := String.mk (s.toList.map upperPy)

/-- Substring test on character lists (Python's `needle in hay`). -/
def listContainsSub (needle hay : List Char) : Bool :=
  hay.tails.any (fun t => needle.isPrefixOf t)

/-- Python's case-sensitive substring operator `needle in hay`. -/
def strContains (hay needle : String) : Bool :=
  listContainsSub needle.toList hay.toList

/-- Case-insensitive substring test (a `re.I` search for a literal). -/
def strContainsCI (hay needle : String) : Bool :=
  strContains (lowerStr hay) (lowerStr needle)

/-- Case-insensitive prefix test (an anchored `re.I` match of a literal). -/
def startsWithCI (pre s : String) : Bool :=
  (lowerStr pre).toList.isPrefixOf (lowerStr s).toList

/-- Strip Python whitespace from both ends of a character list (`str.strip`). -/
def stripList (l : List Char) : List Char :=
  ((l.dropWhile isSpacePy).reverse.dropWhile isSpacePy).reverse

/-- Python `str.strip` on strings. -/
def stripStr (s : String) : String := String.mk (stripList s.toList)

/-- The `LEAD_SYM` constant of enhanced_codex.py: leading symbols stripped from
every raw line. -/
def LEAD_SYM : List Char := ['>', '@', '§', '$', 'Z', ')', '_', '•', '*', '®', '«', '»', ' ']

/-- The `strip_pua` function: remove Unicode Private Use Area glyphs. -/
def strip_pua (l : List Char) : List Char :=
  l.filter (fun c => !(0xE000 ≤ c.toNat && c.toNat ≤ 0xF8FF))

/-- Fuel-driven worker for `collapseWs`; the fuel is the list length, and every
step consumes at least one character, so the fuel never runs out. -/
def collapseWsGo : Nat → List Char → List Char
  | 0, l => l
  | Nat.succ _, [] => []
  | Nat.succ fuel, c :: rest =>
    if isSpacePy c && isSpacePy (rest.headD 'a') then
      ' ' :: collapseWsGo fuel (rest.dropWhile isSpacePy)
    else
      c :: collapseWsGo fuel rest

/-- The substitution `re.sub(r"\s{2,}", " ", ·)`: every run of two or more
whitespace characters becomes a single space; a lone whitespace character is
kept verbatim. -/
def collapseWs (l : List Char) : List Char := collapseWsGo l.length l

/-- The `clean` function of enhanced_codex.py: strip PUA glyphs, strip the
leading symbol set, turn underscores into spaces, collapse whitespace runs,
and trim. -/
def clean (raw : String) : String :=
  let a := strip_pua raw.toList
  let b := a.dropWhile (fun c => LEAD_SYM.contains c)
  let c := b.map (fun ch => if ch = '_' then ' ' else ch)
  String.mk (stripList (collapseWs c))

/-- A Python `decimal.Decimal` value as produced by the amount codec:
`coeff * 10 ^ exp`. Everything `decomma` returns is quantized to two decimal
places, so `exp` is always `-2` (proved below). -/
structure PyDec where
  coeff : Int
  exp : Int
deriving Repr, DecidableEq

/-- The cleaning step of `decomma`: keep only digits, commas and minus signs
(`re.sub(r"[^\d,\-]", "", ·)` after removing spaces; the subsequent removal of
dots is a no-op because dots were already dropped), then turn commas into
dots. -/
def clean_amount (s : String) : List Char :=
  (s.toList.filter (fun c => c.isDigit || c = ',' || c = '-')).map
    (fun c => if c = ',' then '.' else c)

/-- Value of a list of decimal digit characters. -/
def digitsToNat (l : List Char) : Nat :=
  l.foldl (fun a c => a * 10 + (c.toNat - 48)) 0

/-- The `decimal.Decimal` string constructor, restricted to the alphabet
`clean_amount` can produce (digits, dots, minus signs): an optional leading
minus sign, then digits with at most one dot and at least one digit in total.
Returns the signed integer numerator and the number of fraction digits, or
`none` when the constructor would raise `InvalidOperation`. -/
def pyDecimalOfChars (l : List Char) : Option (Int × Nat) :=
  let signed := match l with
    | '-' :: rest => (true, rest)
    | _ => (false, l)
  let ipart := signed.2.takeWhile Char.isDigit
  let l2 := signed.2.dropWhile Char.isDigit
  match l2 with
  | [] =>
    if ipart.isEmpty then none
    else
      let n : Int := digitsToNat ipart
      some (if signed.1 then -n else n, 0)
  | '.' :: l3 =>
    let fpart := l3.takeWhile Char.isDigit
    let l4 := l3.dropWhile Char.isDigit
    if l4.isEmpty && !(ipart.isEmpty && fpart.isEmpty) then
      let n : Int := digitsToNat (ipart ++ fpart)
      some (if signed.1 then -n else n, fpart.length)
    else none
  | _ => none

/-- Quantization of `num / 10 ^ frac` to two decimal places with
`ROUND_HALF_UP` (round to nearest, ties away from zero), returning cents. -/
def roundHalfUpCents (num : Int) (frac : Nat) : Int :=
  if frac ≤ 2 then num * 10 ^ (2 - frac)
  else
    let d : Int := 10 ^ (frac - 2)
    let c := ((num.natAbs : Int) * 2 + d) / (2 * d)
    if num < 0 then -c else c

/-- Number of decimal digits of a natural number (at least one). -/
def natDigits (n : Nat) : Nat := (Nat.toDigits 10 n).length

/-- The `decomma` function of enhanced_codex.py as a total function into
Python decimals: blank input and any parse or quantization failure yield
`Decimal("0.00")`; otherwise the cleaned string is parsed exactly and rounded
half-up to two decimal places. The 28-digit check models the default decimal
context precision, which makes `quantize` raise on huge coefficients (caught
by the bare `except`). -/
def decommaPy (s : String) : PyDec :=
  if (stripList s.toList).isEmpty then ⟨0, -2⟩
  else
    match pyDecimalOfChars (clean_amount s) with
    | none => ⟨0, -2⟩
    | some (num, frac) =>
      let cents := roundHalfUpCents num frac
      if 28 < natDigits cents.natAbs then ⟨0, -2⟩ else ⟨cents, -2⟩

/-- The amount parser used throughout the pipeline, as integer cents. -/
def decomma (s : String) : Int := (decommaPy s).coeff

/-- UTF-8 encoding of one character (Python `str.encode("utf-8")`). -/
def utf8Char (c : Char) : List Nat :=
  let n := c.toNat
  if n < 0x80 then [n]
  else if n < 0x800 then [0xC0 + n / 64, 0x80 + n % 64]
  else if n < 0x10000 then [0xE0 + n / 4096, 0x80 + n / 64 % 64, 0x80 + n % 64]
  else [0xF0 + n / 262144, 0x80 + n / 4096 % 64, 0x80 + n / 64 % 64, 0x80 + n % 64]

/-- UTF-8 encoding of a string as a byte list. -/
def utf8Bytes (s : String) : List Nat :=
  (s.toList.map utf8Char).flatten

/-- Left rotation of a 32-bit word represented as a natural number below 2^32. -/
def rotl32 (x n : Nat) : Nat :=
  (x * 2 ^ n) % 4294967296 + x / 2 ^ (32 - n)

/-- Bitwise complement of a 32-bit word. -/
def not32 (x : Nat) : Nat := 4294967295 - x

/-- Big-endian byte decomposition of `n` into `k` bytes. -/
def beBytes (k n : Nat) : List Nat :=
  (List.range k).reverse.map (fun i => n / 256 ^ i % 256)

/-- SHA-1 message padding: append 0x80, zero bytes to 56 mod 64, and the
bit length as 8 big-endian bytes. -/
def sha1Pad (msg : List Nat) : List Nat :=
  let z := (119 - msg.length % 64) % 64
  msg ++ [0x80] ++ List.replicate z 0 ++ beBytes 8 (msg.length * 8)

/-- Split a byte list into chunks of `n` (fuel-driven; the fuel is the list
length, which is always enough). -/
def chunksGo (n : Nat) : Nat → List Nat → List (List Nat)
  | 0, _ => []
  | Nat.succ _, [] => []
  | Nat.succ fuel, l => l.take n :: chunksGo n fuel (l.drop n)

/-- Split a byte list into chunks of `n` bytes. -/
def chunksOf (n : Nat) (l : List Nat) : List (List Nat) := chunksGo n l.length l

/-- Combine 4 big-endian bytes into a 32-bit word. -/
def wordOfBytes (l : List Nat) : Nat :=
  l.foldl (fun a b => a * 256 + b) 0

/-- Extend the 16 words of a SHA-1 chunk to the 80-word schedule. -/
def sha1Extend (w : Array Nat) : Nat → Array Nat
  | 0 => w
  | Nat.succ k =>
    let w := sha1Extend w k
    let i := 16 + k
    w.push (rotl32 (Nat.xor (Nat.xor (w.getD (i - 3) 0) (w.getD (i - 8) 0))
      (Nat.xor (w.getD (i - 14) 0) (w.getD (i - 16) 0))) 1)

/-- Round function and constant for SHA-1 round `i`. -/
def sha1FK (i b c d : Nat) : Nat × Nat :=
  if i < 20 then (Nat.lor (Nat.land b c) (Nat.land (not32 b) d), 0x5A827999)
  else if i < 40 then (Nat.xor (Nat.xor b c) d, 0x6ED9EBA1)
  else if i < 60 then
    (Nat.lor (Nat.lor (Nat.land b c) (Nat.land b d)) (Nat.land c d), 0x8F1BBCDC)
  else (Nat.xor (Nat.xor b c) d, 0xCA62C1D6)

/-- Process one 64-byte chunk of a SHA-1 computation. -/
def sha1Chunk (h : Nat × Nat × Nat × Nat × Nat) (chunk : List Nat) :
    Nat × Nat × Nat × Nat × Nat :=
  let w0 := ((chunksOf 4 chunk).map wordOfBytes).toArray
  let w := sha1Extend w0 64
  let (h0, h1, h2, h3, h4) := h
  let st := (List.range 80).foldl
    (fun (s : Nat × Nat × Nat × Nat × Nat) i =>
      let (a, b, c, d, e) := s
      let fk := sha1FK i b c d
      let temp := (rotl32 a 5 + fk.1 + e + fk.2 + w.getD i 0) % 4294967296
      (temp, a, rotl32 b 30, c, d))
    (h0, h1, h2, h3, h4)
  ((h0 + st.1) % 4294967296, (h1 + st.2.1) % 4294967296,
   (h2 + st.2.2.1) % 4294967296, (h3 + st.2.2.2.1) % 4294967296,
   (h4 + st.2.2.2.2) % 4294967296)

/-- One lowercase hexadecimal digit. -/
def hexDigit (n : Nat) : Char :=
  if n < 10 then Char.ofNat (48 + n) else Char.ofNat (87 + n)

/-- Lowercase 8-digit hexadecimal rendering of a 32-bit word. -/
def toHex8 (n : Nat) : List Char :=
  (List.range 8).reverse.map (fun i => hexDigit (n / 16 ^ i % 16))

/-- SHA-1 digest of a string (UTF-8 encoded), as the usual 40-character
lowercase hexadecimal string (`hashlib.sha1(...).hexdigest()`). -/
def sha1Hex (s : String) : String :=
  let msg := sha1Pad (utf8Bytes s)
  let h := (chunksOf 64 msg).foldl sha1Chunk
    (0x67452301, 0xEFCDAB89, 0x98BADCFE, 0x10325476, 0xC3D2E1F0)
  String.mk (toHex8 h.1 ++ toHex8 h.2.1 ++ toHex8 h.2.2.1 ++
    toHex8 h.2.2.2.1 ++ toHex8 h.2.2.2.2)

/-- Python rendering of a two-decimal `Decimal` in an f-string
(`str(Decimal(...))` for a value quantized to 0.01). -/
def fmtMoney (cents : Int) : String :=
  (if cents < 0 then "-" else "") ++ toString (cents.natAbs / 100) ++ "." ++
    (if cents.natAbs % 100 < 10 then "0" else "") ++ toString (cents.natAbs % 100)

/-- Python f-string rendering of the `installment_tot` value in the hash
input: `None` when absent, the plain integer otherwise. -/
def fmtOptNat : Option Nat → String
  | none => "None"
  | some n => toString n

/-- The hash input string of the `sha1` function of enhanced_codex.py:
`f"{card}|{date}|{desc}|{valor_brl}|{installment_tot}|{categoria_high}"`. -/
def hashInput (card date desc : String) (valor : Int) (tot : Option Nat)
    (cat : String) : String :=
  card ++ "|" ++ date ++ "|" ++ desc ++ "|" ++ fmtMoney valor ++ "|" ++
    fmtOptNat tot ++ "|" ++ cat

/-- The `sha1` function of enhanced_codex.py: deterministic transaction hash
over card, date, description, amount, installment total and category. -/
def sha1 (card date desc : String) (valor : Int) (tot : Option Nat)
    (cat : String) : String :=
  sha1Hex (hashInput card date desc valor tot cat)

/-- The `calculate_ledger_hash` function of script.py: SHA-1 over
`card|date|lower(desc)|amount` with each component stripped. -/
def calculate_ledger_hash (card_last4 post_date desc_raw valor_brl : String) :
    String :=
  sha1Hex (stripStr card_last4 ++ "|" ++ stripStr post_date ++ "|" ++
    lowerStr (stripStr desc_raw) ++ "|" ++ stripStr valor_brl)

/-- Character class `[-\d.,]` of `RE_DOM`'s amount group. -/
def isDomAmtChar (c : Char) : Bool :=
  c.isDigit || c = '-' || c = '.' || c = ','

/-- Character class `[\d.,]` of the payment amount groups. -/
def isPayAmtChar (c : Char) : Bool :=
  c.isDigit || c = '.' || c = ','

/-- Hand-compiled `RE_DATE.match`: `(\d{1,3})/(\d{1,2})(?:/(\d{4}))?` anchored
at the start. The day group must cover the whole leading digit run (a longer
run leaves a digit where the slash is required), the month group greedily
takes up to two digits, and the year group matches only when a slash and at
least four digits follow the month. Returns the groups `(d, m, y)`. -/
def re_date_match (s : String) : Option (String × String × Option String) :=
  let l := s.toList
  let r1 := l.takeWhile Char.isDigit
  if r1.length < 1 || 3 < r1.length then none
  else
    match l.drop r1.length with
    | '/' :: rest1 =>
      let r2 := rest1.takeWhile Char.isDigit
      if r2.length < 1 then none
      else
        let m := r2.take 2
        let rest2 := rest1.drop m.length
        let y := match rest2 with
          | '/' :: t =>
            let yr := t.takeWhile Char.isDigit
            if 4 ≤ yr.length then some (String.mk (yr.take 4)) else none
          | _ => none
        some (String.mk r1, String.mk m, y)
    | _ => none

/-- Tail check for `RE_DOM`: the text after the description must be one or
more whitespace characters followed by a nonempty run of `[-\d.,]` characters
reaching the end of the line. -/
def domTail (a : List Char) : Option String :=
  let sp2 := a.takeWhile isSpacePy
  let amt := a.drop sp2.length
  if 1 ≤ sp2.length && 1 ≤ amt.length && amt.all isDomAmtChar then
    some (String.mk amt)
  else none

/-- Hand-compiled `RE_DOM.match`:
`^(\d{1,3}/\d{1,2})\s+(.+?)\s+([-\d.,]+)$`. The date part is deterministic
(the following `\s+` forces both digit groups to cover their full runs); the
leading whitespace run is consumed greedily and, on failure, backtracked to
fewer spaces, while the lazy description takes the shortest length whose
remainder is whitespace followed by a trailing amount run. Returns
`(date, desc, amt)`. -/
def re_dom (s : String) : Option (String × String × String) :=
  let l := s.toList
  let r1 := l.takeWhile Char.isDigit
  if r1.length < 1 || 3 < r1.length then none
  else
    match l.drop r1.length with
    | '/' :: rest1 =>
      let r2 := rest1.takeWhile Char.isDigit
      if r2.length < 1 || 2 < r2.length then none
      else
        let tail := rest1.drop r2.length
        let spTot := (tail.takeWhile isSpacePy).length
        if spTot = 0 then none
        else
          ((List.range spTot).map (fun i => spTot - i)).findSome? (fun sp =>
            let r := tail.drop sp
            ((List.range r.length).map (· + 1)).findSome? (fun len =>
              (domTail (r.drop len)).map (fun amt =>
                (String.mk (r1 ++ '/' :: r2), String.mk (r.take len), amt))))
    | _ => none

/-- Greedy `(\.\d{3})*` loop shared by the Brazilian amount tokens: consume
as many `.ddd` groups as possible (fuel-driven on the list length). -/
def dotGroupsGo : Nat → List Char → List Char × List Char
  | 0, l => ([], l)
  | Nat.succ fuel, l =>
    match l with
    | '.' :: d1 :: d2 :: d3 :: rest =>
      if d1.isDigit && d2.isDigit && d3.isDigit then
        let g := dotGroupsGo fuel rest
        ('.' :: d1 :: d2 :: d3 :: g.1, g.2)
      else ([], l)
    | _ => ([], l)

/-- Greedy `(\.\d{3})*` at the head of a list. -/
def dotGroups (l : List Char) : List Char × List Char := dotGroupsGo l.length l

/-- The unsigned Brazilian amount core `\d{1,3}(?:\.\d{3})*,\d{2}` at the head
of a list. The leading digit group must cover the whole digit run (a longer
run leaves a digit where the dot or comma is required). Returns the consumed
token and the rest. -/
def amtCore (l : List Char) : Option (List Char × List Char) :=
  let run := l.takeWhile Char.isDigit
  if run.length < 1 || 3 < run.length then none
  else
    let dg := dotGroups (l.drop run.length)
    match dg.2 with
    | ',' :: e1 :: e2 :: rest =>
      if e1.isDigit && e2.isDigit then
        some (run ++ dg.1 ++ ',' :: e1 :: [e2], rest)
      else none
    | _ => none

/-- The signed token `-?\d{1,3}(?:\.\d{3})*,\d{2}` at the head of a list. -/
def amtTok (l : List Char) : Option (List Char × List Char) :=
  match l with
  | '-' :: rest => (amtCore rest).map (fun p => ('-' :: p.1, p.2))
  | _ => amtCore l

/-- Tail check for `RE_FX_MAIN`: whitespace, a signed amount token, more
whitespace, a second signed amount token, end of line. Returns the two
tokens. -/
def fxTail (a : List Char) : Option (String × String) :=
  let sp2 := a.takeWhile isSpacePy
  if sp2.length = 0 then none
  else
    match amtTok (a.drop sp2.length) with
    | none => none
    | some (t1, b) =>
      let sp3 := b.takeWhile isSpacePy
      if sp3.length = 0 then none
      else
        match amtTok (b.drop sp3.length) with
        | some (t2, []) => some (String.mk t1, String.mk t2)
        | _ => none

/-- Hand-compiled `RE_FX_MAIN.match`:
`^(\d{2}/\d{2})\s+(.+?)\s+(-?amount)\s+(-?amount)$` with the Brazilian
amount tokens above. Returns `(date, descr, orig, brl)`. -/
def re_fx_main (s : String) : Option (String × String × String × String) :=
  match s.toList with
  | a :: b :: '/' :: c :: d :: rest =>
    if a.isDigit && b.isDigit && c.isDigit && d.isDigit then
      let spTot := (rest.takeWhile isSpacePy).length
      if spTot = 0 then none
      else
        ((List.range spTot).map (fun i => spTot - i)).findSome? (fun sp =>
          let r := rest.drop sp
          ((List.range r.length).map (· + 1)).findSome? (fun len =>
            (fxTail (r.drop len)).map (fun p =>
              (String.mk [a, b, '/', c, d], String.mk (r.take len), p.1, p.2))))
    else none
  | _ => none

/-- One attempt of `RE_BRL` at a given position: optional minus sign, then
`\s*`, then the unsigned Brazilian amount core. Returns the matched text. -/
def brlAt (t : List Char) : Option String :=
  match t with
  | '-' :: r =>
    let sp := r.takeWhile isSpacePy
    (amtCore (r.drop sp.length)).map (fun p => String.mk ('-' :: sp ++ p.1))
  | _ =>
    let sp := t.takeWhile isSpacePy
    (amtCore (t.drop sp.length)).map (fun p => String.mk (sp ++ p.1))

/-- Hand-compiled `RE_BRL.search`: `-?\s*\d{1,3}(?:\.\d{3})*,\d{2}` at the
leftmost position where it matches. Returns the matched text. -/
def re_brl_search (s : String) : Option String :=
  s.toList.tails.findSome? brlAt

/-- Hand-compiled `RE_DOLAR.search` (the pattern is anchored with `^`):
`^D[óo]lar de Convers[ãa]o.*?(\d+,\d{4})`. Returns the rate group, the
leftmost digit run followed by a comma and at least four digits. -/
def re_dolar (s : String) : Option String :=
  match s.toList with
  | 'D' :: c1 :: rest =>
    if (c1 = 'ó' || c1 = 'o') && "lar de Convers".toList.isPrefixOf rest then
      match rest.drop 14 with
      | c2 :: 'o' :: rem =>
        if c2 = 'ã' || c2 = 'a' then
          rem.tails.findSome? (fun t =>
            let run := t.takeWhile Char.isDigit
            if run.length < 1 then none
            else
              match t.drop run.length with
              | ',' :: u =>
                let fr := u.takeWhile Char.isDigit
                if 4 ≤ fr.length then
                  some (String.mk (run ++ ',' :: fr.take 4))
                else none
              | _ => none)
        else none
      | _ => none
    else none
  | _ => none

/-- Hand-compiled `RE_CARD.search`: `final (\d{4})` anywhere in the line.
Returns the four captured digits. -/
def re_card (s : String) : Option String :=
  s.toList.tails.findSome? (fun t =>
    if "final ".toList.isPrefixOf t then
      let d := (t.drop 6).takeWhile Char.isDigit
      if 4 ≤ d.length then some (String.mk (d.take 4)) else none
    else none)

/-- Matcher for `RE_IOF_LINE.search`: case-insensitive literal search. -/
def re_iof_line (s : String) : Bool := strContainsCI s "Repasse de IOF"

/-- The header prefixes of `RE_DROP_HDR`. -/
def HDR_PREFIXES : List String :=
  ["Total ", "Lançamentos", "Limites", "Encargos", "Próxima fatura",
   "Demais faturas", "Parcelamento da fatura", "Simulação", "Pontos",
   "Cashback", "Outros lançamentos", "Limite total de crédito",
   "Fatura anterior", "Saldo financiado", "Produtos e serviços", "Tarifa",
   "Compras parceladas - próximas faturas"]

/-- Matcher for `RE_DROP_HDR.match`: the line starts (case-insensitively) with one of the
header prefixes. -/
def re_drop_hdr (s : String) : Bool :=
  HDR_PREFIXES.any (fun p => startsWithCI p s)

/-- Hand-compiled `RE_INST.search`: `(\d{1,2})/(\d{1,2})` anywhere. At a
given position the first group must cover the whole digit run (a longer run
leaves a digit where the slash is required); the second group greedily takes
up to two digits. -/
def re_inst (s : String) : Option (Nat × Nat) :=
  s.toList.tails.findSome? (fun t =>
    let run := t.takeWhile Char.isDigit
    if run.length < 1 || 2 < run.length then none
    else
      match t.drop run.length with
      | '/' :: rest =>
        let r2 := rest.takeWhile Char.isDigit
        if r2.length < 1 then none
        else some (digitsToNat run, digitsToNat (r2.take 2))
      | _ => none)

/-- Hand-compiled `RE_INST_TXT.search`: `\+\s*(\d+)\s*x\s*R\$` (case
sensitive). Only the success of the match matters to the caller. -/
def re_inst_txt (s : String) : Bool :=
  s.toList.tails.any (fun t =>
    match t with
    | '+' :: r =>
      let r1 := r.drop (r.takeWhile isSpacePy).length
      let run := r1.takeWhile Char.isDigit
      if run.length < 1 then false
      else
        let r2 := r1.drop run.length
        let r3 := r2.drop (r2.takeWhile isSpacePy).length
        match r3 with
        | 'x' :: r4 =>
          let r5 := r4.drop (r4.takeWhile isSpacePy).length
          match r5 with
          | 'R' :: '$' :: _ => true
          | _ => false
        | _ => false
    | _ => false)

/-- Result of the inline `re_parc` alternation of parse_txt: which
alternative matched and its digit groups. -/
inductive ParcMatch where
  | slash (s t : Nat)
  | times (s : Nat)
  | de (s t : Nat)
deriving Repr, DecidableEq

/-- First alternative of `re_parc`: `(\d{1,2})\s*/\s*(\d{1,2})`. -/
def parcAlt1 (t : List Char) : Option ParcMatch :=
  let run := t.takeWhile Char.isDigit
  if run.length < 1 || 2 < run.length then none
  else
    let r1 := t.drop run.length
    let r2 := r1.drop (r1.takeWhile isSpacePy).length
    match r2 with
    | '/' :: r3 =>
      let r4 := r3.drop (r3.takeWhile isSpacePy).length
      let g2 := r4.takeWhile Char.isDigit
      if g2.length < 1 then none
      else some (ParcMatch.slash (digitsToNat run) (digitsToNat (g2.take 2)))
    | _ => none

/-- Second alternative of `re_parc`: `(\d{1,2})\s*x\s*R\$`, case
insensitive. -/
def parcAlt2 (t : List Char) : Option ParcMatch :=
  let run := t.takeWhile Char.isDigit
  if run.length < 1 || 2 < run.length then none
  else
    let r1 := t.drop run.length
    let r2 := r1.drop (r1.takeWhile isSpacePy).length
    match r2 with
    | x :: r3 =>
      if x = 'x' || x = 'X' then
        let r4 := r3.drop (r3.takeWhile isSpacePy).length
        match r4 with
        | rc :: '$' :: _ =>
          if rc = 'R' || rc = 'r' then some (ParcMatch.times (digitsToNat run))
          else none
        | _ => none
      else none
    | _ => none

/-- Third alternative of `re_parc`: `(\d{1,2})\s*de\s*(\d{1,2})`, case
insensitive. -/
def parcAlt3 (t : List Char) : Option ParcMatch :=
  let run := t.takeWhile Char.isDigit
  if run.length < 1 || 2 < run.length then none
  else
    let r1 := t.drop run.length
    let r2 := r1.drop (r1.takeWhile isSpacePy).length
    match r2 with
    | dc :: ec :: r3 =>
      if (dc = 'd' || dc = 'D') && (ec = 'e' || ec = 'E') then
        let r4 := r3.drop (r3.takeWhile isSpacePy).length
        let g2 := r4.takeWhile Char.isDigit
        if g2.length < 1 then none
        else some (ParcMatch.de (digitsToNat run) (digitsToNat (g2.take 2)))
      else none
    | _ => none

/-- Hand-compiled search for the inline `re_parc` pattern of parse_txt:
`(\d{1,2})\s*/\s*(\d{1,2})|(\d{1,2})\s*x\s*R\$|(\d{1,2})\s*de\s*(\d{1,2})`
with `re.I`; the leftmost position wins and, at one position, the
alternatives are tried left to right. -/
def re_parc (s : String) : Option ParcMatch :=
  s.toList.tails.findSome? (fun t =>
    (parcAlt1 t).orElse (fun _ => (parcAlt2 t).orElse (fun _ => parcAlt3 t)))

/-- Date token `\d{1,3}/\d{1,2}(?:/\d{4})?` of the payment patterns, at the
start of a line. The digit groups must cover their whole runs (the following
`\s+` or `/` rules out shorter greedy choices), and the optional year matches
only a slash followed by exactly four digits (with more digits, both the
with-year and without-year alternatives fail on the required `\s+`). Returns
the date group and the rest of the line. -/
def payDate (l : List Char) : Option (List Char × List Char) :=
  let r1 := l.takeWhile Char.isDigit
  if r1.length < 1 || 3 < r1.length then none
  else
    match l.drop r1.length with
    | '/' :: rest1 =>
      let r2 := rest1.takeWhile Char.isDigit
      if r2.length < 1 || 2 < r2.length then none
      else
        let after := rest1.drop r2.length
        match after with
        | '/' :: t =>
          let yr := t.takeWhile Char.isDigit
          if yr.length = 4 then
            some (r1 ++ '/' :: r2 ++ '/' :: yr, t.drop 4)
          else none
        | _ => some (r1 ++ '/' :: r2, after)
    | _ => none

/-- One attempt of the `RE_PAY_LINE_ANY` amount tail at a given position:
`(-?\s*[\d.,]+)\s*$`. The optional minus sign is taken greedily; dropping it
cannot succeed where taking it fails. Returns the amount group. -/
def payAmtAt (t : List Char) : Option String :=
  let p := match t with
    | '-' :: r => (['-'], r)
    | _ => (([] : List Char), t)
  let sp := p.2.takeWhile isSpacePy
  let r2 := p.2.drop sp.length
  let run := r2.takeWhile isPayAmtChar
  if run.length < 1 then none
  else if (r2.drop run.length).all isSpacePy then
    some (String.mk (p.1 ++ sp ++ run))
  else none

/-- Hand-compiled `RE_PAY_LINE_ANY.match`:
`^(date)\s+PAGAMENTO.*?(-?\s*[\d.,]+)\s*$` with `re.I`. The lazy gap scans
forward to the leftmost position where the amount tail matches. Returns
`(date, amt)`. -/
def re_pay_any (s : String) : Option (String × String) :=
  match payDate s.toList with
  | none => none
  | some (dt, rest) =>
    let sp := rest.takeWhile isSpacePy
    if sp.length = 0 then none
    else
      let r := rest.drop sp.length
      if "pagamento".toList.isPrefixOf (r.map lowerPy) then
        ((r.drop 9).tails.findSome? payAmtAt).map (fun amt => (String.mk dt, amt))
      else none

/-- Tail of `RE_PAY_LINE` after the `PAGAMENTO( EFETUADO)?` part:
`\s+7117\s*[-\t ]+(-\s*[\d.,]+)\s*$`. The two greedy separator quantifiers
make the amount's minus sign start as late as possible, so the candidate
positions are scanned in descending order. Returns the amount group. -/
def strictAfter (v : List Char) : Option String :=
  let sp := v.takeWhile isSpacePy
  if sp.length = 0 then none
  else
    let w := v.drop sp.length
    if "7117".toList.isPrefixOf w then
      let s := w.drop 4
      (List.range s.length).reverse.findSome? (fun j =>
        if j < 1 then none
        else if (s.take j).all (fun c => c = ' ' || c = '\t' || c = '-') then
          match s.drop j with
          | '-' :: r =>
            let sp2 := r.takeWhile isSpacePy
            let r2 := r.drop sp2.length
            let run := r2.takeWhile isPayAmtChar
            if run.length < 1 then none
            else if (r2.drop run.length).all isSpacePy then
              some (String.mk ('-' :: sp2 ++ run))
            else none
          | _ => none
        else none)
    else none

/-- Hand-compiled `RE_PAY_LINE.match`:
`^(date)\s+PAGAMENTO(\s+EFETUADO)?\s+7117\s*[-\t ]+(-\s*[\d.,]+)\s*$` with
`re.I`. The optional `EFETUADO` group is tried first, with full fallback to
the variant without it. Returns `(date, amt)`. -/
def re_pay_strict (s : String) : Option (String × String) :=
  match payDate s.toList with
  | none => none
  | some (dt, rest) =>
    let sp := rest.takeWhile isSpacePy
    if sp.length = 0 then none
    else
      let r := rest.drop sp.length
      if "pagamento".toList.isPrefixOf (r.map lowerPy) then
        let afterPag := r.drop 9
        let withEf : Option (List Char) :=
          let sp2 := afterPag.takeWhile isSpacePy
          if sp2.length = 0 then none
          else
            let u := afterPag.drop sp2.length
            if "efetuado".toList.isPrefixOf (u.map lowerPy) then
              some (u.drop 8)
            else none
        match withEf.bind strictAfter with
        | some amt => some (String.mk dt, amt)
        | none => (strictAfter afterPag).map (fun amt => (String.mk dt, amt))
      else none

/-- The combined payment match of parse_txt, line 354:
`RE_PAY_LINE.match(line) or RE_PAY_LINE_ANY.match(line)`. -/
def pay_match (s : String) : Option (String × String) :=
  (re_pay_strict s).orElse (fun _ => re_pay_any s)

/-- The installment extraction of parse_txt, lines 386–397: try `RE_INST`,
then `RE_INST_TXT` (whose single group leads to the `else` arm that sets both
fields to `None`), then the inline `re_parc` alternation, and map the match
to `(installment_seq, installment_tot)` through the `lastindex` dispatch. -/
def installments (desc : String) : Option Nat × Option Nat :=
  match re_inst desc with
  | some (s, t) => (some s, some t)
  | none =>
    if re_inst_txt desc then (none, none)
    else
      match re_parc desc with
      | some (ParcMatch.slash s t) => (some s, some t)
      | some (ParcMatch.times s) => (some s, none)
      | some (ParcMatch.de s t) => (some s, some t)
      | none => (none, none)

/-- The ordered merchant keyword table of `classify` (enhanced_codex.py lines
110–160), in source order. -/
def CATEGORY_PAIRS : List (String × String) :=
  [("ACELERADOR", "SERVIÇOS"), ("PONTOS", "SERVIÇOS"), ("ANUIDADE", "SERVIÇOS"),
   ("SEGURO", "SERVIÇOS"), ("TARIFA", "SERVIÇOS"), ("PRODUTO", "SERVIÇOS"),
   ("SERVIÇO", "SERVIÇOS"),
   ("SUPERMERC", "SUPERMERCADO"), ("MERCADO", "SUPERMERCADO"),
   ("FARMAC", "FARMÁCIA"), ("DROG", "FARMÁCIA"), ("PANVEL", "FARMÁCIA"),
   ("RESTAUR", "RESTAURANTE"), ("PIZZ", "RESTAURANTE"), ("BAR", "RESTAURANTE"),
   ("CAFÉ", "RESTAURANTE"), ("LANCHE", "RESTAURANTE"),
   ("ALIMENT", "ALIMENTAÇÃO"), ("IFD", "ALIMENTAÇÃO"),
   ("POSTO", "POSTO"), ("COMBUST", "POSTO"), ("GASOLIN", "POSTO"),
   ("UBER", "TRANSPORTE"), ("TAXI", "TRANSPORTE"), ("TRANSP", "TRANSPORTE"),
   ("PASSAGEM", "TRANSPORTE"),
   ("AEROPORTO", "TURISMO"), ("HOTEL", "TURISMO"), ("TUR", "TURISMO"),
   ("ENTRETENIM", "TURISMO"),
   ("SAUD", "SAÚDE"), ("VEIC", "VEÍCULOS"), ("VEST", "VESTUÁRIO"),
   ("LOJA", "VESTUÁRIO"), ("MAGAZINE", "VESTUÁRIO"), ("EDU", "EDUCAÇÃO"),
   ("HOBBY", "HOBBY"), ("DIVERS", "DIVERSOS")]

/-- The `classify` function of enhanced_codex.py: priority rules (payment
marker, adjustment keyword or small absolute amount, charge keywords), then
the first matching merchant keyword, then currency keywords, then the
default. The amount is in cents, so `abs(amt) <= Decimal("0.30")` becomes
`amt.natAbs ≤ 30`. -/
def classify (desc : String) (amt : Int) : String :=
  let d := upperStr desc
  if strContains d "7117" then "PAGAMENTO"
  else if strContains d "AJUSTE" ∨ (amt.natAbs ≤ 30 ∧ 0 < amt.natAbs) then "AJUSTE"
  else if ["IOF", "JUROS", "MULTA"].any (fun k => strContains d k) then "ENCARGOS"
  else
    match CATEGORY_PAIRS.find? (fun p => strContains d p.1) with
    | some p => p.2
    | none =>
      if strContains d "EUR" ∨ strContains d "USD" ∨ strContains d "FX" then "FX"
      else "DIVERSOS"

/-- The previous-bill keyword list of `is_prev_bill_payoff`. -/
def PREV_KW : List String := ["fatura anterior", "ref.", "refª", "pagt anterior"]

/-- The `is_prev_bill_payoff` function of enhanced_codex.py: the first
payment of a statement, or any payment naming a previous-cycle keyword, is a
previous-bill payoff. -/
def is_prev_bill_payoff (descr : String) (seq_no : Nat) : Bool :=
  seq_no == 0 || PREV_KW.any (fun k => strContains (lowerStr descr) k)

/-- Zero-padded decimal rendering of a natural number (Python's `{:0Nd}`
f-string format). -/
def padZ (w n : Nat) : String :=
  let s := toString n
  if s.length < w then String.mk (List.replicate (w - s.length) '0') ++ s else s

/-- The `norm_date` function of enhanced_codex.py: empty input stays empty, a
non-matching input is returned unchanged, and a match is formatted as
`YYYY-MM-DD` with the reference year substituted for a missing year. The
`int(...)` conversions cannot fail on regex digit groups, so the
`ValueError` arm is dead code. -/
def norm_date (date : String) (ry rm : Nat) : String :=
  if date = "" then ""
  else
    match re_date_match date with
    | none => date
    | some (d, m, y) =>
      let ys := match y with
        | some v => v
        | none => toString ry
      let ms := if m = "" then toString rm else m
      padZ 4 (digitsToNat ys.toList) ++ "-" ++ padZ 2 (digitsToNat ms.toList)
        ++ "-" ++ padZ 2 (digitsToNat d.toList)

/-- Python `str.title` for one pass over the characters: a cased character
after a non-cased one is uppercased, other cased characters are lowercased. -/
def titleGo : Bool → List Char → List Char
  | _, [] => []
  | prev, c :: rest =>
    let cased := lowerPy c ≠ c || upperPy c ≠ c
    let c2 := if cased then (if prev then lowerPy c else upperPy c) else c
    c2 :: titleGo cased rest

/-- Python `str.title` on the Latin-1 letter subset. -/
def titlePy (s : String) : String := String.mk (titleGo false s.toList)

/-- First whitespace-separated word of a string (`str.split()[0]`; the
all-whitespace case, unreachable from cleaned lines, yields the empty
string). -/
def firstWord (s : String) : String :=
  String.mk ((s.toList.dropWhile isSpacePy).takeWhile (fun c => !isSpacePy c))

/-- The optional keyword fields passed to `build` by parse_txt (the
`merchant_city` key is never passed there, so it is not modelled). A missing
key and a key passed with value `None` are both `none`, which is exactly how
`kv.get` and the schema fill treat them. -/
structure Extras where
  valor_orig : Option Int
  fx_rate : Option Nat
  iof_brl : Option Int
  installment_seq : Option Nat
  installment_tot : Option Nat
deriving Repr, DecidableEq

/-- Extras record with every field absent. -/
def noExtras : Extras := ⟨none, none, none, none, none⟩

/-- One output transaction of parse_txt, with the schema fields that the
parser can actually populate (the remaining schema columns are always the
empty string). FX rates are scaled by 10^4, amounts are in cents. -/
structure Row where
  card_last4 : String
  post_date : String
  desc_raw : String
  valor_brl : Int
  installment_seq : Option Nat
  installment_tot : Option Nat
  valor_orig : Option Int
  fx_rate : Option Nat
  iof_brl : Option Int
  categoria_high : String
  merchant_city : Option String
  ledger_hash : String
deriving Repr, DecidableEq

/-- The `build` function of enhanced_codex.py: normalize the date, compute
the ledger hash over card, normalized date, description, amount, installment
total and category, and derive the FX merchant city from the description. -/
def build (card date desc : String) (valor : Int) (cat : String) (ry rm : Nat)
    (kv : Extras) : Row :=
  let norm := if date = "" then "" else norm_date date ry rm
  let ledger := sha1 card norm desc valor kv.installment_tot cat
  let city : Option String :=
    if cat = "FX" then
      if strContains desc " " then some (titlePy (firstWord desc))
      else if desc ≠ "" then some (titlePy desc)
      else none
    else none
  ⟨card, norm, desc, valor, kv.installment_seq, kv.installment_tot,
   kv.valor_orig, kv.fx_rate, kv.iof_brl, cat, city, ledger⟩

/-- Value of the rate group `\d+,\d{4}` of `RE_DOLAR`, scaled by 10^4
(`Decimal(m.group(1).replace(',', '.'))` is exact). -/
def rateOfGroup (g : String) : Nat :=
  let l := g.toList
  let ip := l.takeWhile Char.isDigit
  digitsToNat ip * 10000 + digitsToNat (l.drop (ip.length + 1))

/-- Result of `parse_fx_chunk`. -/
structure FxRes where
  date : String
  descr : String
  valor_orig : Int
  valor_brl : Int
  fx_rate : Nat
  iof : Int
deriving Repr, DecidableEq

/-- One step of the window scan of `parse_fx_chunk` (the loop over
`chunk[1:]`): an IOF line updates the IOF amount when it carries one, any
other line matching the rate pattern becomes the rate line (the last such
line wins thanks to the `elif`). -/
def fxScanStep (acc : Int × Option String) (ln : String) : Int × Option String :=
  if re_iof_line ln then
    match re_brl_search ln with
    | some m => (decomma m, acc.2)
    | none => acc
  else if (re_dolar ln).isSome then (acc.1, some ln)
  else acc

/-- The `parse_fx_chunk` function of enhanced_codex.py: the first line must
match `RE_FX_MAIN`; the remaining lines are scanned for an IOF amount
(keeping the last one) and a rate line (keeping the last one, checked with
`elif`, so an IOF line is never a rate line); without a rate line the chunk
is not an FX cluster. -/
def parse_fx_chunk (chunk : List String) : Option FxRes :=
  if chunk.length < 2 then none
  else
    match chunk with
    | [] => none
    | main :: rest =>
      match re_fx_main main with
      | none => none
      | some (date, descr, orig, brl) =>
        let scan := rest.foldl fxScanStep (0, none)
        match scan.2 with
        | none => none
        | some rate_line =>
          match re_dolar rate_line with
          | none => none
          | some g => some ⟨date, descr, decomma orig, decomma brl, rateOfGroup g, scan.1⟩

/-- Parser state of the parse_txt loop: current card, date of the last
domestic or payment transaction, payment ordinal, seen FX dedup keys,
accumulated IOF postings, and the (always zero) `skip` counter. -/
structure St where
  card : String
  lastDate : Option String
  pagSeq : Nat
  seenFx : List (String × String × Int × Int × Nat)
  iofPostings : List Row
  skip : Nat
deriving Repr, DecidableEq

/-- Initial parser state. -/
def st0 : St := ⟨"0000", none, 0, [], [], 0⟩

/-- The FX window attempt of parse_txt, lines 329–337: try the three-line
window when two lookahead lines exist, then the two-line window; the second
component is the final value of the `consumed` variable (used only when the
first component is `some`). -/
def fx_attempt (line : String) (rest : List String) : Option FxRes × Nat :=
  let a3 : Option FxRes :=
    if 2 ≤ rest.length then parse_fx_chunk (line :: (rest.take 2).map clean)
    else none
  match a3 with
  | some r => (some r, 3)
  | none =>
    if 1 ≤ rest.length then (parse_fx_chunk [line, clean (rest.headD "")], 2)
    else (none, 1)

/-- The payment branch of parse_txt, lines 355–373, after a successful
payment match with groups `(dt, amt)`: suppress a previous-bill payoff
(incrementing the ordinal), reject a non-negative amount (without
incrementing), otherwise emit a `PAGAMENTO` row, increment the ordinal and
remember the date. -/
def payBranch (line dt amt : String) (st : St) (ry rm : Nat) : List Row × St :=
  if is_prev_bill_payoff line st.pagSeq then
    ([], { st with pagSeq := st.pagSeq + 1 })
  else
    let val := decomma amt
    if 0 ≤ val then ([], st)
    else
      ([build st.card dt "PAGAMENTO" val "PAGAMENTO" ry rm noExtras],
       { st with pagSeq := st.pagSeq + 1, lastDate := some dt })

/-- The domestic branch of parse_txt, lines 376–414 (entered whenever
`RE_DATE` matches): on an `RE_DOM` match, extract the installment fields,
reject the line when both are nonzero with `seq > tot`, otherwise classify
and emit the row and remember the date. -/
def date_branch (line : String) (st : St) (ry rm : Nat) : List Row × St :=
  match re_dom line with
  | none => ([], st)
  | some (dt, desc, amtStr) =>
    let amt := decomma amtStr
    let inst := installments desc
    if (match inst.1, inst.2 with
        | some s, some t => t ≠ 0 && s ≠ 0 && t < s
        | _, _ => false) then ([], st)
    else
      let cat := classify desc amt
      ([build st.card dt desc amt cat ry rm ⟨none, none, none, inst.1, inst.2⟩],
       { st with lastDate := some dt })

/-- The IOF branch of parse_txt, lines 417–426: an IOF line with an amount
appends a posting (dated to the last remembered date, or left blank) to the
deferred `iof_postings` list; no row is emitted in place. -/
def iofBranch (line : String) (st : St) (ry rm : Nat) : St :=
  match re_brl_search line with
  | some m =>
    let valor := decomma m
    { st with iofPostings := st.iofPostings ++
        [build st.card (st.lastDate.getD "") "Repasse de IOF em R$" valor "IOF"
          ry rm ⟨none, none, some valor, none, none⟩] }
  | none => st

/-- The interest keyword test of parse_txt, line 429. -/
def interestKw (line : String) : Bool :=
  ["JUROS", "MULTA", "IOF DE FINANCIAMENTO"].any
    (fun k => strContains (upperStr line) k)

/-- The interest branch of parse_txt, lines 429–437: a keyword line with a
nonzero amount emits an `ENCARGOS` row dated to the last remembered date. -/
def interestBranch (line : String) (st : St) (ry rm : Nat) : List Row :=
  match re_brl_search line with
  | some m =>
    let valor := decomma m
    if valor ≠ 0 then
      [build st.card (st.lastDate.getD "") line valor "ENCARGOS" ry rm noExtras]
    else []
  | none => []

/-- One iteration of the parse_txt loop at the current line with the given
lookahead: returns how many lines were consumed, the rows emitted in place,
and the new state. The branch order (skip, header drop, blank, card header,
FX window, payment, domestic, IOF, interest, miss) is the source's. -/
def parseStep (raw : String) (rest : List String) (st : St) (ry rm : Nat) :
    Nat × List Row × St :=
  if st.skip ≠ 0 then (1, [], { st with skip := st.skip - 1 })
  else
    let line := clean raw
    if re_drop_hdr line then (1, [], st)
    else if line = "" then (1, [], st)
    else
      match re_card line with
      | some c => (1, [], { st with card := c })
      | none =>
        let fx := fx_attempt line rest
        match fx.1 with
        | some r =>
          let key := (r.descr, r.date, r.valor_brl, r.valor_orig, r.fx_rate)
          if st.seenFx.contains key then (fx.2, [], st)
          else
            (fx.2,
             [build st.card r.date r.descr r.valor_brl "FX" ry rm
               ⟨some r.valor_orig, some r.fx_rate, some r.iof, none, none⟩],
             { st with seenFx := st.seenFx ++ [key] })
        | none =>
          match pay_match line with
          | some (dt, amt) => (1, payBranch line dt amt st ry rm)
          | none =>
            if (re_date_match line).isSome then (1, date_branch line st ry rm)
            else if re_iof_line line then (1, [], iofBranch line st ry rm)
            else if interestKw line then (1, interestBranch line st ry rm, st)
            else (1, [], st)

/-- Fuel-driven worker for the main loop of parse_txt: run `parseStep` on the
current line, skip the extra consumed lookahead lines, and continue. The fuel
only bounds the number of iterations; since every step consumes at least one
line, fuel equal to the number of lines never runs out. -/
def parseLoopGo : Nat → List String → St → Nat → Nat → List Row × St
  | 0, _, st, _, _ => ([], st)
  | Nat.succ fuel, lines, st, ry, rm =>
    match lines with
    | [] => ([], st)
    | raw :: rest =>
      let so := parseStep raw rest st ry rm
      let r2 := parseLoopGo fuel (rest.drop (so.1 - 1)) so.2.2 ry rm
      (so.2.1 ++ r2.1, r2.2)

/-- The main loop of parse_txt. -/
def parseLoop (lines : List String) (st : St) (ry rm : Nat) : List Row × St :=
  parseLoopGo lines.length lines st ry rm

/-- The `parse_txt` function of enhanced_codex.py on an already-read line
list: run the loop from the initial state, append the deferred IOF postings,
and keep only rows with a non-empty post date (the amount condition of the
final filter is vacuous, every built row carries an amount). The I/O shell
(file reading, statistics counters, verbose logging) does not affect the row
list and is not modelled. -/
def parse_txt (lines : List String) (ry rm : Nat) : List Row :=
  let lp := parseLoop lines st0 ry rm
  (lp.1 ++ lp.2.iofPostings).filter (fun r => r.post_date ≠ "")

/-- Worker for `dedup_by_hash` carrying the set of seen hashes. -/
def dedupGo (seen : List String) : List Row → List Row
  | [] => []
  | t :: rest =>
    if seen.contains t.ledger_hash then dedupGo seen rest
    else t :: dedupGo (t.ledger_hash :: seen) rest

/-- The deduplication step of script.py's `parse_statement`, lines 523–527:
`unique.setdefault(t.ledger_hash, t)` over the transaction list and then
`list(unique.values())` — keep the first transaction for every ledger hash,
in first-occurrence order. -/
def dedup_by_hash (txs : List Row) : List Row := dedupGo [] txs

/-- Worker for `count_dupes` carrying the set of seen hashes. -/
def countDupesGo (seen : List String) : List Row → Nat
  | [] => 0
  | r :: rest =>
    if seen.contains r.ledger_hash then 1 + countDupesGo seen rest
    else countDupesGo (r.ledger_hash :: seen) rest

/-- The duplicate check of enhanced_codex.py's `main`, lines 527–534: count
rows whose ledger hash was already seen. The row list itself is not changed
by this check, and `main` writes all of `rows` to the CSV afterwards. -/
def count_dupes (rows : List Row) : Nat := countDupesGo [] rows

/-- Installment well-formedness of one output row: whenever both installment
fields are set and the total is nonzero, the sequence number does not exceed
the total. -/
def instOk (r : Row) : Prop :=
  ∀ s t : Nat, r.installment_seq = some s → r.installment_tot = some t →
    1 ≤ t → s ≤ t

/-- Every row kept by `dedupGo` avoids the hashes already seen, and the kept
rows have pairwise distinct hashes. -/
theorem dedupGo_pairwise (txs : List Row) : ∀ seen : List String,
    (dedupGo seen txs).Pairwise (fun a b => a.ledger_hash ≠ b.ledger_hash) ∧
    ∀ r ∈ dedupGo seen txs, seen.contains r.ledger_hash = false := by
  induction txs with
  | nil => intro seen; exact ⟨List.Pairwise.nil, by simp [dedupGo]⟩
  | cons t rest ih =>
    intro seen
    by_cases hc : seen.contains t.ledger_hash = true
    · simp only [dedupGo, hc, if_true]
      exact ih seen
    · simp only [dedupGo, hc, if_false, Bool.false_eq_true]
      refine ⟨List.Pairwise.cons ?_ (ih (t.ledger_hash :: seen)).1, ?_⟩
      · intro b hb
        have hmem := (ih (t.ledger_hash :: seen)).2 b hb
        simp only [List.contains_cons, Bool.or_eq_false_iff, beq_eq_false_iff_ne] at hmem
        exact fun he => hmem.1 (he ▸ rfl)
      · intro r hr
        rcases List.mem_cons.mp hr with he | hm
        · subst he; exact Bool.not_eq_true _ ▸ (by simpa using hc)
        · have := (ih (t.ledger_hash :: seen)).2 r hm
          simp only [List.contains_cons, Bool.or_eq_false_iff] at this
          exact this.2

/-- The second component of the FX window scan stays `none` when no window
line matches the rate pattern. -/
theorem fxScan_none (rest : List String) (h : ∀ l ∈ rest, re_dolar l = none) :
    ∀ a : Int, (rest.foldl fxScanStep (a, none)).2 = none := by
  induction rest with
  | nil => intro a; rfl
  | cons x xs ih =>
    intro a
    have hx : re_dolar x = none := h x (by simp)
    have hxs : ∀ l ∈ xs, re_dolar l = none := fun l hl => h l (by simp [hl])
    rw [List.foldl_cons]
    obtain ⟨a2, h2⟩ : ∃ a2, fxScanStep (a, none) x = (a2, none) := by
      unfold fxScanStep
      by_cases hiofl : re_iof_line x = true
      · rw [if_pos hiofl]
        cases re_brl_search x with
        | some m => exact ⟨decomma m, rfl⟩
        | none => exact ⟨a, rfl⟩
      · rw [if_neg hiofl, hx]
        exact ⟨a, by simp⟩
    rw [h2]
    exact ih hxs a2

/-- The function `parse_fx_chunk` fails whenever no line after the main one matches the
rate pattern: FX classification requires a rate line. -/
theorem parse_fx_chunk_none (chunk : List String)
    (h : ∀ l ∈ chunk.drop 1, re_dolar l = none) : parse_fx_chunk chunk = none := by
  unfold parse_fx_chunk
  split
  · rfl
  · cases chunk with
    | nil => rfl
    | cons main rest =>
      have hrest : ∀ l ∈ rest, re_dolar l = none := by
        intro l hl
        exact h l (by simpa using hl)
      simp only
      cases hm : re_fx_main main with
      | none => rfl
      | some q =>
        obtain ⟨date, descr, orig, brl⟩ := q
        simp only
        rw [fxScan_none rest hrest 0]

/-- The FX window attempt fails when no lookahead line in the window carries
a rate marker. -/
theorem fx_attempt_none (line : String) (rest : List String)
    (h : ∀ l ∈ rest.take 2, re_dolar (clean l) = none) :
    (fx_attempt line rest).1 = none := by
  unfold fx_attempt
  have h3 : (if 2 ≤ rest.length then
      parse_fx_chunk (line :: (rest.take 2).map clean) else none) = none := by
    split
    · exact parse_fx_chunk_none _ (by
        intro l hl
        simp only [List.drop_one, List.tail_cons, List.mem_map] at hl
        obtain ⟨x, hx, rfl⟩ := hl
        exact h x hx)
    · rfl
  rw [h3]
  split
  · rename_i h1
    simp only
    apply parse_fx_chunk_none
    intro l hl
    simp only [List.drop_one, List.tail_cons, List.mem_singleton] at hl
    subst hl
    cases rest with
    | nil => simp at h1
    | cons x xs => exact h x (by simp)
  · rfl

/-- Consumed-window bounds of a successful FX attempt. -/
theorem fx_attempt_bounds (line : String) (rest : List String) (r : FxRes)
    (h : (fx_attempt line rest).1 = some r) :
    2 ≤ (fx_attempt line rest).2 ∧ (fx_attempt line rest).2 ≤ 3 := by
  unfold fx_attempt at h ⊢
  cases h3 : (if 2 ≤ rest.length then
      parse_fx_chunk (line :: (rest.take 2).map clean) else none) with
  | some q => simp [h3]
  | none =>
    by_cases h1 : 1 ≤ rest.length
    · simp [h1]
    · have h2 : ¬ 2 ≤ rest.length := by omega
      simp [h1, h2] at h

/-- Claim C3, counterexample: enhanced_codex.py does not drop ledger-hash
duplicates from its output. Parsing the same domestic line twice emits two
rows with equal ledger hashes, and `main` writes all rows to the CSV (its
duplicate check only counts), so the final output of this parse run does not
have pairwise distinct hashes. -/
theorem c3_counterexample :
    ¬ ((parse_txt ["10/04 LOJA 50,00", "10/04 LOJA 50,00"] 2025 4).map
        Row.ledger_hash).Nodup := by decide

/-- Claim C3, amended: in script.py's `parse_statement` the returned list
keeps only the first transaction per ledger hash, so its hashes are pairwise
distinct; enhanced_codex.py's `main` instead counts duplicates in its
`dupes` statistic but writes every parsed row, duplicates included. The
concrete conjuncts evaluate the duplicate counter and output length of
`main` on the duplicated-line input. -/
theorem c3_dedup :
    (∀ txs : List Row,
      (dedup_by_hash txs).Pairwise (fun a b => a.ledger_hash ≠ b.ledger_hash)) ∧
    count_dupes (parse_txt ["10/04 LOJA 50,00", "10/04 LOJA 50,00"] 2025 4) = 1 ∧
    (parse_txt ["10/04 LOJA 50,00", "10/04 LOJA 50,00"] 2025 4).length = 2 := by
  refine ⟨fun txs => (dedupGo_pairwise txs []).1, by decide, by decide⟩

/-- Claim C4: the ledger hash of every transaction built by enhanced_codex.py
is a function of exactly the six fields card_last4, post_date, desc_raw,
valor_brl, installment_tot and categoria_high — two built rows agreeing on
those six fields have equal hashes, and every row's hash equals the `sha1`
digest of precisely those six of its fields, so no other field can affect
it. -/
theorem c4_hash_fields :
    (∀ (ca1 da1 de1 : String) (v1 : Int) (cat1 : String) (ry1 rm1 : Nat) (kv1 : Extras)
       (ca2 da2 de2 : String) (v2 : Int) (cat2 : String) (ry2 rm2 : Nat) (kv2 : Extras),
      (build ca1 da1 de1 v1 cat1 ry1 rm1 kv1).card_last4 =
        (build ca2 da2 de2 v2 cat2 ry2 rm2 kv2).card_last4 →
      (build ca1 da1 de1 v1 cat1 ry1 rm1 kv1).post_date =
        (build ca2 da2 de2 v2 cat2 ry2 rm2 kv2).post_date →
      (build ca1 da1 de1 v1 cat1 ry1 rm1 kv1).desc_raw =
        (build ca2 da2 de2 v2 cat2 ry2 rm2 kv2).desc_raw →
      (build ca1 da1 de1 v1 cat1 ry1 rm1 kv1).valor_brl =
        (build ca2 da2 de2 v2 cat2 ry2 rm2 kv2).valor_brl →
      (build ca1 da1 de1 v1 cat1 ry1 rm1 kv1).installment_tot =
        (build ca2 da2 de2 v2 cat2 ry2 rm2 kv2).installment_tot →
      (build ca1 da1 de1 v1 cat1 ry1 rm1 kv1).categoria_high =
        (build ca2 da2 de2 v2 cat2 ry2 rm2 kv2).categoria_high →
      (build ca1 da1 de1 v1 cat1 ry1 rm1 kv1).ledger_hash =
        (build ca2 da2 de2 v2 cat2 ry2 rm2 kv2).ledger_hash) ∧
    (∀ (ca da de : String) (v : Int) (cat : String) (ry rm : Nat) (kv : Extras),
      (build ca da de v cat ry rm kv).ledger_hash =
        sha1 (build ca da de v cat ry rm kv).card_last4
          (build ca da de v cat ry rm kv).post_date
          (build ca da de v cat ry rm kv).desc_raw
          (build ca da de v cat ry rm kv).valor_brl
          (build ca da de v cat ry rm kv).installment_tot
          (build ca da de v cat ry rm kv).categoria_high) := by
  constructor
  · intro ca1 da1 de1 v1 cat1 ry1 rm1 kv1 ca2 da2 de2 v2 cat2 ry2 rm2 kv2
      h1 h2 h3 h4 h5 h6
    simp only [build] at h1 h2 h3 h4 h5 h6 ⊢
    rw [h1, h2, h3, h4, h5, h6]
  · intro ca da de v cat ry rm kv
    simp only [build]

/-- Claim C4, witness: two concrete builds that differ only in a field
outside the hash tuple (installment_seq) receive the same ledger hash. -/
theorem c4_hash_fields_witness :
    (build "1234" "10/04" "MERCADO X" 5000 "SUPERMERCADO" 2025 4
        ⟨none, none, none, some 2, some 5⟩).ledger_hash =
    (build "1234" "10/04" "MERCADO X" 5000 "SUPERMERCADO" 2025 4
        ⟨none, none, none, some 3, some 5⟩).ledger_hash :=
  c4_hash_fields.1 "1234" "10/04" "MERCADO X" 5000 "SUPERMERCADO" 2025 4
    ⟨none, none, none, some 2, some 5⟩ "1234" "10/04" "MERCADO X" 5000
    "SUPERMERCADO" 2025 4 ⟨none, none, none, some 3, some 5⟩
    rfl rfl rfl rfl rfl rfl

/-- Claim C6: the source coerces unparseable input to defaults instead of
surfacing an error, exactly the behavior the specification flags as a defect
to fix. On the unparseable amount "garbage", `decomma` silently returns
`Decimal("0.00")`; on the invalid month-13 date "05/13", `norm_date`
silently emits the out-of-calendar string "2025-13-05". No
`AmountParseFailure` or `DateParseFailure` condition exists anywhere in the
code. -/
theorem c6_silent_default :
    decommaPy "garbage" = ⟨0, -2⟩ ∧ decomma "garbage" = 0 ∧
    norm_date "05/13" 2025 4 = "2025-13-05" := by decide

/-- Claim C8, counterexample: a description containing both an IOF keyword
and a merchant keyword does not always resolve to ENCARGOS — with amount
0.10 the higher-priority small-amount adjustment rule fires first and
classifies "IOF FARMACIA" as AJUSTE. -/
theorem c8_counterexample :
    classify "IOF FARMACIA" 10 = "AJUSTE" ∧
    ("AJUSTE" : String) ≠ "ENCARGOS" := by decide

/-- Claim C8, amended: provided no higher-priority rule fires (the uppercased
description contains neither the payment marker "7117" nor "AJUSTE", and the
amount is not a small-value adjustment), every description containing an
IOF, JUROS or MULTA keyword is classified ENCARGOS — in particular it never
resolves to a merchant category, whatever merchant keywords it also
contains. -/
theorem c8_priority (desc : String) (amt : Int)
    (h7 : strContains (upperStr desc) "7117" = false)
    (haj : strContains (upperStr desc) "AJUSTE" = false)
    (hsm : ¬ (amt.natAbs ≤ 30 ∧ 0 < amt.natAbs))
    (hk : strContains (upperStr desc) "IOF" = true ∨
          strContains (upperStr desc) "JUROS" = true ∨
          strContains (upperStr desc) "MULTA" = true) :
    classify desc amt = "ENCARGOS" := by
  have hc2 : ¬ (strContains (upperStr desc) "AJUSTE" = true ∨
      (amt.natAbs ≤ 30 ∧ 0 < amt.natAbs)) := by
    rintro (h | h)
    · rw [haj] at h; exact Bool.false_ne_true h
    · exact hsm h
  simp only [classify]
  rw [if_neg (by simp [h7]), if_neg hc2, if_pos]
  rcases hk with h | h | h <;> simp [h]

/-- Claim C8, witness: with a large amount, the IOF-plus-merchant description
resolves to ENCARGOS through the amended priority theorem. -/
theorem c8_priority_witness : classify "IOF FARMACIA" 5000 = "ENCARGOS" :=
  c8_priority "IOF FARMACIA" 5000 (by decide) (by decide) (by decide)
    (Or.inl (by decide))

/-- Claim C10: `decomma` is total and always yields a decimal quantized to
exactly two places (exponent -2): blank input yields `Decimal("0.00")`, and
so does any cleaned string the `Decimal` constructor cannot parse. -/
theorem c10_decomma_total (s : String) :
    (decommaPy s).exp = -2 ∧
    ((stripList s.toList).isEmpty = true → decommaPy s = ⟨0, -2⟩) ∧
    (pyDecimalOfChars (clean_amount s) = none → decommaPy s = ⟨0, -2⟩) := by
  refine ⟨?_, fun he => by unfold decommaPy; rw [if_pos he], fun hp => ?_⟩
  · unfold decommaPy
    split
    · rfl
    · cases pyDecimalOfChars (clean_amount s) with
      | none => rfl
      | some p =>
        obtain ⟨num, frac⟩ := p
        simp only
        split <;> rfl
  · unfold decommaPy
    split
    · rfl
    · rw [hp]

/-- Claim C10, witness: the empty string is blank and unparseable, and
`decomma` returns exactly `Decimal("0.00")` on it. -/
theorem c10_decomma_total_witness :
    (decommaPy "").exp = -2 ∧ decommaPy "" = ⟨0, -2⟩ ∧ decommaPy "" = ⟨0, -2⟩ :=
  ⟨(c10_decomma_total "").1, (c10_decomma_total "").2.1 (by decide),
   (c10_decomma_total "").2.2 (by decide)⟩

/-- A step whose cleaned line reaches the FX branch with a successful window
attempt consumes the attempt's window size and emits the FX row unless the
dedup key was already seen. -/
theorem parseStep_fx (raw : String) (rest : List String) (st : St) (ry rm : Nat)
    (r : FxRes) (hskip : st.skip = 0)
    (hhdr : re_drop_hdr (clean raw) = false) (hne : ¬ clean raw = "")
    (hcard : re_card (clean raw) = none)
    (hfx : (fx_attempt (clean raw) rest).1 = some r) :
    parseStep raw rest st ry rm =
      (if st.seenFx.contains (r.descr, r.date, r.valor_brl, r.valor_orig, r.fx_rate)
       then ((fx_attempt (clean raw) rest).2, [], st)
       else ((fx_attempt (clean raw) rest).2,
         [build st.card r.date r.descr r.valor_brl "FX" ry rm
           ⟨some r.valor_orig, some r.fx_rate, some r.iof, none, none⟩],
         { st with seenFx :=
             st.seenFx ++ [(r.descr, r.date, r.valor_brl, r.valor_orig, r.fx_rate)] })) := by
  simp only [parseStep, hskip, ne_eq, not_true_eq_false, if_false, hhdr,
    Bool.false_eq_true, hne, hcard, hfx]

/-- A step whose cleaned line falls past the card and FX checks is handled by
the payment, domestic, IOF, interest or miss branch. -/
theorem parseStep_routed (raw : String) (rest : List String) (st : St) (ry rm : Nat)
    (hskip : st.skip = 0)
    (hhdr : re_drop_hdr (clean raw) = false) (hne : ¬ clean raw = "")
    (hcard : re_card (clean raw) = none)
    (hfx : (fx_attempt (clean raw) rest).1 = none) :
    parseStep raw rest st ry rm =
      (match pay_match (clean raw) with
       | some (dt, amt) => (1, payBranch (clean raw) dt amt st ry rm)
       | none =>
         if (re_date_match (clean raw)).isSome then (1, date_branch (clean raw) st ry rm)
         else if re_iof_line (clean raw) then (1, [], iofBranch (clean raw) st ry rm)
         else if interestKw (clean raw) then (1, interestBranch (clean raw) st ry rm, st)
         else (1, [], st)) := by
  simp only [parseStep, hskip, ne_eq, not_true_eq_false, if_false, hhdr,
    Bool.false_eq_true, hne, hcard, hfx]

/-- Every step that does not complete a successful FX window consumes exactly
one line. -/
theorem parseStep_consumed_one (raw : String) (rest : List String) (st : St)
    (ry rm : Nat) (hfx : (fx_attempt (clean raw) rest).1 = none) :
    (parseStep raw rest st ry rm).1 = 1 := by
  by_cases h1 : st.skip ≠ 0
  · simp [parseStep, h1]
  · by_cases h2 : re_drop_hdr (clean raw) = true
    · simp [parseStep, h1, h2]
    · by_cases h3 : clean raw = ""
      · simp [parseStep, h1, h2, h3]
      · cases h4 : re_card (clean raw) with
        | some c => simp [parseStep, h1, h2, h3, h4]
        | none =>
          rw [parseStep_routed raw rest st ry rm (by omega)
            (by simpa using h2) h3 h4 hfx]
          cases pay_match (clean raw) with
          | some p => rfl
          | none =>
            simp only
            split
            · rfl
            · split
              · rfl
              · split <;> rfl

/-- Claim C9: the assembler's main loop always advances. Every iteration
consumes between one and three lines; an iteration without a successful FX
window match consumes exactly one line (this covers single-line matches, the
skip branch and misses), and an iteration whose FX window attempt succeeds
(reached with no pending skip, on a non-header, non-blank, non-card line)
consumes the window size of the attempt, which is two or three lines. The
loop is a total function in this embedding, so termination on every finite
line list is immediate. -/
theorem c9_progress (raw : String) (rest : List String) (st : St) (ry rm : Nat) :
    1 ≤ (parseStep raw rest st ry rm).1 ∧ (parseStep raw rest st ry rm).1 ≤ 3 ∧
    ((fx_attempt (clean raw) rest).1 = none → (parseStep raw rest st ry rm).1 = 1) ∧
    (∀ r : FxRes, st.skip = 0 → re_drop_hdr (clean raw) = false → ¬ clean raw = "" →
      re_card (clean raw) = none → (fx_attempt (clean raw) rest).1 = some r →
      ((parseStep raw rest st ry rm).1 = (fx_attempt (clean raw) rest).2 ∧
       2 ≤ (fx_attempt (clean raw) rest).2 ∧ (fx_attempt (clean raw) rest).2 ≤ 3)) := by
  have hmain : 1 ≤ (parseStep raw rest st ry rm).1 ∧ (parseStep raw rest st ry rm).1 ≤ 3 := by
    cases hfx : (fx_attempt (clean raw) rest).1 with
    | none =>
      rw [parseStep_consumed_one raw rest st ry rm hfx]
      omega
    | some r =>
      by_cases h1 : st.skip ≠ 0
      · simp [parseStep, h1]
      · by_cases h2 : re_drop_hdr (clean raw) = true
        · simp [parseStep, h1, h2]
        · by_cases h3 : clean raw = ""
          · simp [parseStep, h1, h2, h3]
          · cases h4 : re_card (clean raw) with
            | some c => simp [parseStep, h1, h2, h3, h4]
            | none =>
              rw [parseStep_fx raw rest st ry rm r (by omega)
                (by simpa using h2) h3 h4 hfx]
              have hb := fx_attempt_bounds (clean raw) rest r hfx
              split
              · exact ⟨by omega, by omega⟩
              · exact ⟨by omega, by omega⟩
  refine ⟨hmain.1, hmain.2, parseStep_consumed_one raw rest st ry rm, ?_⟩
  intro r hskip hhdr hne hcard hfx
  have hb := fx_attempt_bounds (clean raw) rest r hfx
  rw [parseStep_fx raw rest st ry rm r hskip hhdr hne hcard hfx]
  split
  · exact ⟨rfl, hb⟩
  · exact ⟨rfl, hb⟩

/-- Claim C9, witness: a plain domestic line consumes exactly one line, and a
complete three-line FX window consumes three. -/
theorem c9_progress_witness :
    (parseStep "15/04 PADARIA DO JOAO 45,90" [] st0 2025 4).1 = 1 ∧
    (parseStep "10/04 AMAZON.COM 10,00 52,34"
      ["Repasse de IOF 1,20", "Dólar de Conversão R$ 5,2340"] st0 2025 4).1 = 3 := by
  constructor
  · exact (c9_progress "15/04 PADARIA DO JOAO 45,90" [] st0 2025 4).2.2.1 (by decide)
  · have h := (c9_progress "10/04 AMAZON.COM 10,00 52,34"
      ["Repasse de IOF 1,20", "Dólar de Conversão R$ 5,2340"] st0 2025 4).2.2.2
      ⟨"10/04", "AMAZON.COM", 1000, 5234, 52340, 120⟩
      rfl (by decide) (by decide) (by decide) (by decide)
    rw [h.1]
    decide

/-- Claim C2: behavior of a matched payment line. The first payment matched
in a statement (ordinal zero at match time) is suppressed with no emitted
transaction, whatever its description, and the ordinal advances; a payment
line containing a previous-cycle keyword is suppressed at any ordinal; and
every later payment line without such a keyword whose parsed amount is
negative is emitted as a PAGAMENTO transaction carrying exactly that
amount. -/
theorem c2_payment_rules (raw : String) (rest : List String) (st : St)
    (ry rm : Nat) (dt amt : String) (hskip : st.skip = 0)
    (hhdr : re_drop_hdr (clean raw) = false)
    (hcard : re_card (clean raw) = none)
    (hfx : (fx_attempt (clean raw) rest).1 = none)
    (hpay : pay_match (clean raw) = some (dt, amt)) :
    (st.pagSeq = 0 →
      (parseStep raw rest st ry rm).2.1 = [] ∧
      (parseStep raw rest st ry rm).2.2.pagSeq = st.pagSeq + 1) ∧
    (PREV_KW.any (fun k => strContains (lowerStr (clean raw)) k) = true →
      (parseStep raw rest st ry rm).2.1 = []) ∧
    (0 < st.pagSeq →
      PREV_KW.any (fun k => strContains (lowerStr (clean raw)) k) = false →
      decomma amt < 0 →
      (parseStep raw rest st ry rm).2.1 =
        [build st.card dt "PAGAMENTO" (decomma amt) "PAGAMENTO" ry rm noExtras] ∧
      (parseStep raw rest st ry rm).2.2.pagSeq = st.pagSeq + 1 ∧
      (build st.card dt "PAGAMENTO" (decomma amt) "PAGAMENTO" ry rm
        noExtras).categoria_high = "PAGAMENTO" ∧
      (build st.card dt "PAGAMENTO" (decomma amt) "PAGAMENTO" ry rm
        noExtras).valor_brl = decomma amt) := by
  have hne : ¬ clean raw = "" := by
    intro he
    rw [he] at hpay
    have h0 : pay_match "" = none := by decide
    rw [h0] at hpay
    exact Option.noConfusion hpay
  have hstep := parseStep_routed raw rest st ry rm hskip hhdr hne hcard hfx
  rw [hpay] at hstep
  refine ⟨fun h0 => ?_, fun hkw => ?_, fun hpos hkw hneg => ?_⟩
  · have hprev : is_prev_bill_payoff (clean raw) st.pagSeq = true := by
      simp [is_prev_bill_payoff, h0]
    rw [hstep]
    simp [payBranch, hprev]
  · have hprev : is_prev_bill_payoff (clean raw) st.pagSeq = true := by
      simp only [is_prev_bill_payoff, Bool.or_eq_true]
      exact Or.inr hkw
    rw [hstep]
    simp [payBranch, hprev]
  · have hprev : is_prev_bill_payoff (clean raw) st.pagSeq = false := by
      simp only [is_prev_bill_payoff, Bool.or_eq_false_iff]
      refine ⟨?_, hkw⟩
      simp only [beq_eq_false_iff_ne, ne_eq]
      omega
    have hnotge : ¬ (0 ≤ decomma amt) := by omega
    rw [hstep]
    simp [payBranch, hprev, hnotge, build]

/-- Claim C2, witness: the spec's first-payment example. With payment ordinal
one, no keyword, and a negative amount, the second payment line of the
example is emitted as a PAGAMENTO row with amount -300.00. -/
theorem c2_payment_rules_witness :
    (parseStep "20/04 PAGAMENTO CARTAO -300,00" []
      ⟨"0000", none, 1, [], [], 0⟩ 2025 4).2.1 =
      [build "0000" "20/04" "PAGAMENTO" (-30000) "PAGAMENTO" 2025 4 noExtras] := by
  have h := (c2_payment_rules "20/04 PAGAMENTO CARTAO -300,00" []
    ⟨"0000", none, 1, [], [], 0⟩ 2025 4 "20/04" "-300,00" rfl (by decide)
    (by decide) (by decide) (by decide)).2.2 (by decide) (by decide) (by decide)
  rw [h.1]
  have hamt : decomma "-300,00" = -30000 := by decide
  rw [hamt]

/-- Characters of the Python whitespace class are not digits. -/
theorem isDigit_false_of_space (c : Char) (h : isSpacePy c = true) :
    c.isDigit = false := by
  simp only [isSpacePy, Bool.or_eq_true, decide_eq_true_eq] at h
  rcases h with ((((h | h) | h) | h) | h) | h <;> subst h <;> decide

/-- Decimal digit characters have code points between 48 and 57. -/
theorem toNat_of_isDigit (c : Char) (h : c.isDigit = true) :
    48 ≤ c.toNat ∧ c.toNat ≤ 57 := by
  unfold Char.isDigit at h
  simp only [Bool.and_eq_true, decide_eq_true_eq, Char.le_def] at h
  exact ⟨h.1, h.2⟩

/-- Characters at or below the digit range are fixed by `lowerPy`. -/
theorem lowerPy_of_le (c : Char) (h : c.toNat ≤ 57) : lowerPy c = c := by
  unfold lowerPy
  rw [if_neg, if_neg]
  · rintro ⟨h1, -, -⟩
    omega
  · rintro ⟨h1, -⟩
    rw [Char.le_def] at h1
    have h2 : (65 : Nat) ≤ c.toNat := h1
    omega

/-- A case-insensitive prefix test fails when the lowered first characters
differ. -/
theorem startsWithCI_false_headD (p s : String) (c : Char) (sr : List Char)
    (hs2 : (lowerStr s).toList = c :: sr)
    (hne : ((lowerStr p).toList.headD 'x' == c) = false)
    (hnil : (lowerStr p).toList ≠ []) : startsWithCI p s = false := by
  unfold startsWithCI
  rw [hs2]
  cases hp : (lowerStr p).toList with
  | nil => exact absurd hp hnil
  | cons pc pr =>
    rw [hp] at hne
    simp only [List.headD] at hne
    simp [List.isPrefixOf, hne]

/-- Structure of a successful `RE_FX_MAIN` match: the line starts with two
digits, a slash, two digits and a whitespace character. -/
theorem re_fx_main_shape (s : String) (m : String × String × String × String)
    (h : re_fx_main s = some m) :
    ∃ a b c d c0 r0, s.toList = a :: b :: '/' :: c :: d :: c0 :: r0 ∧
      a.isDigit = true ∧ b.isDigit = true ∧ c.isDigit = true ∧ d.isDigit = true ∧
      isSpacePy c0 = true := by
  unfold re_fx_main at h
  split at h
  case h_1 a b c d rest heq =>
    by_cases hdig : (a.isDigit && b.isDigit && c.isDigit && d.isDigit) = true
    case neg =>
      rw [if_neg hdig] at h
      exact Option.noConfusion h
    case pos =>
      rw [if_pos hdig] at h
      simp only [Bool.and_eq_true] at hdig
      cases rest with
      | nil => simp [List.takeWhile] at h
      | cons c0 r0 =>
        by_cases hc0 : isSpacePy c0 = true
        · exact ⟨a, b, c, d, c0, r0, heq, hdig.1.1.1, hdig.1.1.2, hdig.1.2,
            hdig.2, hc0⟩
        · rw [List.takeWhile_cons, if_neg hc0] at h
          simp at h
  case h_2 => exact absurd h (by simp)

/-- An `RE_FX_MAIN` match guarantees an `RE_DATE` match on the same line: the
gate into the domestic branch accepts every FX-start line. -/
theorem re_date_of_fx (s : String) (m : String × String × String × String)
    (h : re_fx_main s = some m) : (re_date_match s).isSome = true := by
  obtain ⟨a, b, c, d, c0, r0, hs, ha, hb, hc, hd, hc0⟩ := re_fx_main_shape s m h
  have hslash : ('/' : Char).isDigit = false := by decide
  have hc0d : c0.isDigit = false := isDigit_false_of_space c0 hc0
  unfold re_date_match
  rw [hs]
  simp [List.takeWhile_cons, ha, hb, hc, hd, hslash, hc0d]

/-- An `RE_FX_MAIN` match guarantees the line is not dropped as a header:
every header prefix starts with a letter while the line starts with a
digit. -/
theorem re_drop_hdr_of_fx (s : String) (m : String × String × String × String)
    (h : re_fx_main s = some m) : re_drop_hdr s = false := by
  obtain ⟨a, b, c, d, c0, r0, hs, ha, hb, hc, hd, hc0⟩ := re_fx_main_shape s m h
  have ha57 : a.toNat ≤ 57 := (toNat_of_isDigit a ha).2
  have hlow : (lowerStr s).toList =
      a :: (b :: '/' :: c :: d :: c0 :: r0).map lowerPy := by
    have hsd : s.data = a :: b :: '/' :: c :: d :: c0 :: r0 := hs
    simp [lowerStr, hsd, lowerPy_of_le a ha57]
  have hne_t : ∀ pc : Char, 97 ≤ pc.toNat → (pc == a) = false := by
    intro pc hpc
    rw [beq_eq_false_iff_ne]
    intro he
    rw [← he] at ha57
    omega
  have H : ∀ p : String, 97 ≤ ((lowerStr p).toList.headD 'x').toNat →
      (lowerStr p).toList ≠ [] → startsWithCI p s = false := fun p h1 h2 =>
    startsWithCI_false_headD p s a _ hlow (hne_t _ h1) h2
  simp only [re_drop_hdr, HDR_PREFIXES, List.any_cons, List.any_nil,
    Bool.or_eq_false_iff]
  exact ⟨H "Total " (by decide) (by decide),
    H "Lançamentos" (by decide) (by decide),
    H "Limites" (by decide) (by decide),
    H "Encargos" (by decide) (by decide),
    H "Próxima fatura" (by decide) (by decide),
    H "Demais faturas" (by decide) (by decide),
    H "Parcelamento da fatura" (by decide) (by decide),
    H "Simulação" (by decide) (by decide),
    H "Pontos" (by decide) (by decide),
    H "Cashback" (by decide) (by decide),
    H "Outros lançamentos" (by decide) (by decide),
    H "Limite total de crédito" (by decide) (by decide),
    H "Fatura anterior" (by decide) (by decide),
    H "Saldo financiado" (by decide) (by decide),
    H "Produtos e serviços" (by decide) (by decide),
    H "Tarifa" (by decide) (by decide),
    H "Compras parceladas - próximas faturas" (by decide) (by decide),
    trivial⟩

/-- Non-empty lines follow from an `RE_FX_MAIN` match. -/
theorem ne_empty_of_fx (s : String) (m : String × String × String × String)
    (h : re_fx_main s = some m) : ¬ s = "" := by
  obtain ⟨a, b, c, d, c0, r0, hs, -⟩ := re_fx_main_shape s m h
  intro he
  rw [he] at hs
  exact List.noConfusion hs

/-- Claim C1, counterexample: an FX-start line with no rate line in its
lookahead windows is not always re-emitted as a domestic transaction. This
line matches `RE_FX_MAIN`, its window has no conversion-rate line, yet the
run emits nothing at all: the card-header check fires first on the embedded
"final 1234" marker and consumes the line. -/
theorem c1_counterexample :
    (re_fx_main (clean "10/04 SHOP final 1234 10,00 52,34")).isSome = true ∧
    re_dolar (clean "RANDOM TEXT NO RATE") = none ∧
    parse_txt ["10/04 SHOP final 1234 10,00 52,34", "RANDOM TEXT NO RATE"]
      2025 4 = [] := by decide

/-- Claim C1, amended: when the cleaned line matches the FX-start pattern but
no line of the lookahead window matches the conversion-rate pattern, and the
line is intercepted neither by the card-header check nor by the payment
check, the step consumes exactly one line and is re-evaluated by the plain
domestic branch. On the specification's fallback example the line is then
emitted as a domestic transaction whose amount is the trailing monetary
field 52.34. -/
theorem c1_fx_fallback :
    (∀ (raw : String) (rest : List String) (st : St) (ry rm : Nat)
       (m : String × String × String × String), st.skip = 0 →
      re_fx_main (clean raw) = some m →
      (∀ l ∈ rest.take 2, re_dolar (clean l) = none) →
      re_card (clean raw) = none →
      pay_match (clean raw) = none →
      parseStep raw rest st ry rm = (1, date_branch (clean raw) st ry rm)) ∧
    (parse_txt ["10/04 AMAZON.COM 10,00 52,34", "RANDOM TEXT NO RATE"] 2025 4).map
        (fun r => (r.desc_raw, r.valor_brl, r.categoria_high, r.post_date)) =
      [("AMAZON.COM 10,00", 5234, "DIVERSOS", "2025-04-10")] := by
  constructor
  · intro raw rest st ry rm m hskip hfxm hwin hcard hpay
    have hfx : (fx_attempt (clean raw) rest).1 = none := fx_attempt_none _ _ hwin
    rw [parseStep_routed raw rest st ry rm hskip
      (re_drop_hdr_of_fx _ m hfxm) (ne_empty_of_fx _ m hfxm) hcard hfx, hpay]
    rw [if_pos (re_date_of_fx _ m hfxm)]
  · decide

/-- Claim C1, witness: the specification's own fallback example, step by
step — the FX-start line with a rate-free window is handed to the domestic
branch. -/
theorem c1_fx_fallback_witness :
    parseStep "10/04 AMAZON.COM 10,00 52,34" ["RANDOM TEXT NO RATE"] st0 2025 4 =
      (1, date_branch (clean "10/04 AMAZON.COM 10,00 52,34") st0 2025 4) :=
  c1_fx_fallback.1 "10/04 AMAZON.COM 10,00 52,34" ["RANDOM TEXT NO RATE"] st0
    2025 4 ("10/04", "AMAZON.COM", "10,00", "52,34") rfl (by decide)
    (by decide) (by decide) (by decide)

/-- Claim C7, counterexample: the date stamped on an interest line is not the
date of the most recent domestic or FX transaction. In this run the most
recent such transaction is the FX purchase dated 2025-04-12, yet the JUROS
row is dated 2025-04-10 — the FX branch never updates the remembered date. -/
theorem c7_counterexample :
    (parse_txt ["10/04 LOJA 50,00", "12/04 XYZ 10,00 52,34",
        "Dólar de Conversão R$ 5,2340", "filler", "JUROS 1,00"] 2025 4).map
      (fun r => (r.post_date, r.categoria_high)) =
      [("2025-04-10", "VESTUÁRIO"), ("2025-04-12", "FX"),
       ("2025-04-10", "ENCARGOS")] ∧
    ("2025-04-10" : String) ≠ "2025-04-12" := by decide

/-- Claim C7, amended: every IOF and every interest or fee transaction is
dated to `last_date`, the date of the most recent domestic or payment
transaction — an interest/fee row is built on it directly, an IOF line
appends a deferred posting built on it — while a successful FX step leaves
`last_date` unchanged, so FX purchases never contribute the date. When no
prior date exists, the posting (interest and IOF alike) is built with an
empty date and silently removed by the final filter, with no error
reported. -/
theorem c7_iof_interest_date :
    (∀ (raw : String) (rest : List String) (st : St) (ry rm : Nat) (m : String),
      st.skip = 0 → re_drop_hdr (clean raw) = false → ¬ clean raw = "" →
      re_card (clean raw) = none → (fx_attempt (clean raw) rest).1 = none →
      pay_match (clean raw) = none → (re_date_match (clean raw)).isSome = false →
      re_iof_line (clean raw) = false → interestKw (clean raw) = true →
      re_brl_search (clean raw) = some m → ¬ decomma m = 0 →
      (parseStep raw rest st ry rm).2.1 =
        [build st.card (st.lastDate.getD "") (clean raw) (decomma m) "ENCARGOS"
          ry rm noExtras]) ∧
    (∀ (raw : String) (rest : List String) (st : St) (ry rm : Nat) (m : String),
      st.skip = 0 → re_drop_hdr (clean raw) = false → ¬ clean raw = "" →
      re_card (clean raw) = none → (fx_attempt (clean raw) rest).1 = none →
      pay_match (clean raw) = none → (re_date_match (clean raw)).isSome = false →
      re_iof_line (clean raw) = true → re_brl_search (clean raw) = some m →
      (parseStep raw rest st ry rm).2.1 = [] ∧
      (parseStep raw rest st ry rm).2.2.iofPostings =
        st.iofPostings ++
          [build st.card (st.lastDate.getD "") "Repasse de IOF em R$"
            (decomma m) "IOF" ry rm ⟨none, none, some (decomma m), none, none⟩]) ∧
    (∀ (raw : String) (rest : List String) (st : St) (ry rm : Nat) (r : FxRes),
      st.skip = 0 → re_drop_hdr (clean raw) = false → ¬ clean raw = "" →
      re_card (clean raw) = none → (fx_attempt (clean raw) rest).1 = some r →
      (parseStep raw rest st ry rm).2.2.lastDate = st.lastDate) ∧
    parse_txt ["JUROS 10,00"] 2025 4 = [] ∧
    parse_txt ["Repasse de IOF 2,50"] 2025 4 = [] := by
  refine ⟨?_, ?_, ?_, by decide, by decide⟩
  · intro raw rest st ry rm m hskip hhdr hne hcard hfx hpay hdate hiof hkw hbrl hnz
    rw [parseStep_routed raw rest st ry rm hskip hhdr hne hcard hfx, hpay]
    rw [if_neg (by simp [hdate]), if_neg (by simp [hiof]), if_pos hkw]
    simp only [interestBranch, hbrl]
    rw [if_pos hnz]
  · intro raw rest st ry rm m hskip hhdr hne hcard hfx hpay hdate hiof hbrl
    rw [parseStep_routed raw rest st ry rm hskip hhdr hne hcard hfx, hpay]
    rw [if_neg (by simp [hdate]), if_pos hiof]
    refine ⟨rfl, ?_⟩
    simp only [iofBranch, hbrl]
  · intro raw rest st ry rm r hskip hhdr hne hcard hfx
    rw [parseStep_fx raw rest st ry rm r hskip hhdr hne hcard hfx]
    split
    · rfl
    · rfl

/-- Claim C7, witness: a JUROS line after a remembered date is emitted as an
ENCARGOS row built on that remembered date, and an IOF line after the same
remembered date appends a deferred IOF posting built on it. -/
theorem c7_iof_interest_date_witness :
    (parseStep "JUROS 10,00" [] ⟨"0000", some "10/04", 0, [], [], 0⟩ 2025 4).2.1 =
      [build "0000" "10/04" "JUROS 10,00" 1000 "ENCARGOS" 2025 4 noExtras] ∧
    (parseStep "Repasse de IOF 2,50" []
        ⟨"0000", some "10/04", 0, [], [], 0⟩ 2025 4).2.2.iofPostings =
      [build "0000" "10/04" "Repasse de IOF em R$" 250 "IOF" 2025 4
        ⟨none, none, some 250, none, none⟩] := by
  constructor
  · have h := c7_iof_interest_date.1 "JUROS 10,00" []
      ⟨"0000", some "10/04", 0, [], [], 0⟩ 2025 4 " 10,00" rfl (by decide)
      (by decide) (by decide) (by decide) (by decide) (by decide) (by decide)
      (by decide) (by decide) (by decide)
    rw [h]
    rfl
  · have h := (c7_iof_interest_date.2.1 "Repasse de IOF 2,50" []
      ⟨"0000", some "10/04", 0, [], [], 0⟩ 2025 4 " 2,50" rfl (by decide)
      (by decide) (by decide) (by decide) (by decide) (by decide) (by decide)
      (by decide)).2
    rw [h]
    rfl

/-- Rows built with both installment fields absent are installment
well-formed. -/
theorem instOk_build_none (ca da de : String) (v : Int) (cat : String)
    (ry rm : Nat) (vo : Option Int) (fr : Option Nat) (iov : Option Int) :
    instOk (build ca da de v cat ry rm ⟨vo, fr, iov, none, none⟩) := by
  intro s t hs ht h1
  simp [build] at hs

/-- The payment branch only emits rows without installment fields and leaves
the deferred IOF postings unchanged. -/
theorem payBranch_instOk (line dt amt : String) (st : St) (ry rm : Nat) :
    (∀ r ∈ (payBranch line dt amt st ry rm).1, instOk r) ∧
    (payBranch line dt amt st ry rm).2.iofPostings = st.iofPostings := by
  unfold payBranch
  split
  · exact ⟨by simp, rfl⟩
  · by_cases hval : 0 ≤ decomma amt
    · exact ⟨by simp [hval], by simp [hval]⟩
    · refine ⟨?_, by simp [hval]⟩
      intro r hr
      simp [hval] at hr
      rw [hr]
      exact instOk_build_none _ _ _ _ _ _ _ _ _ _

/-- The domestic branch only emits installment well-formed rows and leaves
the deferred IOF postings unchanged. -/
theorem date_branch_instOk (line : String) (st : St) (ry rm : Nat) :
    (∀ r ∈ (date_branch line st ry rm).1, instOk r) ∧
    (date_branch line st ry rm).2.iofPostings = st.iofPostings := by
  unfold date_branch
  cases hdom : re_dom line with
  | none => exact ⟨by simp, rfl⟩
  | some p =>
    obtain ⟨dt, desc, amtStr⟩ := p
    simp only
    split
    · exact ⟨by simp, rfl⟩
    · rename_i hrej
      refine ⟨?_, rfl⟩
      intro x hx
      rw [List.mem_singleton.mp hx]
      intro s t hs ht hpos
      simp only [build] at hs ht
      rw [hs, ht] at hrej
      simp at hrej
      omega

/-- Every row a single step emits, and every deferred IOF posting after the
step, is installment well-formed, provided the deferred postings were
beforehand. -/
theorem parseStep_instOk (raw : String) (rest : List String) (st : St)
    (ry rm : Nat) (hst : ∀ r ∈ st.iofPostings, instOk r) :
    (∀ r ∈ (parseStep raw rest st ry rm).2.1, instOk r) ∧
    (∀ r ∈ (parseStep raw rest st ry rm).2.2.iofPostings, instOk r) := by
  by_cases h1 : st.skip ≠ 0
  · refine ⟨by simp [parseStep, h1], ?_⟩
    simpa [parseStep, h1] using hst
  · by_cases h2 : re_drop_hdr (clean raw) = true
    · refine ⟨by simp [parseStep, h1, h2], ?_⟩
      simpa [parseStep, h1, h2] using hst
    · by_cases h3 : clean raw = ""
      · refine ⟨by simp [parseStep, h1, h2, h3], ?_⟩
        simpa [parseStep, h1, h2, h3] using hst
      · cases h4 : re_card (clean raw) with
        | some c =>
          refine ⟨by simp [parseStep, h1, h2, h3, h4], ?_⟩
          simpa [parseStep, h1, h2, h3, h4] using hst
        | none =>
          cases h5 : (fx_attempt (clean raw) rest).1 with
          | some r =>
            rw [parseStep_fx raw rest st ry rm r (by omega)
              (by simpa using h2) h3 h4 h5]
            split
            · exact ⟨by simp, hst⟩
            · refine ⟨?_, hst⟩
              intro x hx
              rw [List.mem_singleton.mp hx]
              exact instOk_build_none _ _ _ _ _ _ _ _ _ _
          | none =>
            rw [parseStep_routed raw rest st ry rm (by omega)
              (by simpa using h2) h3 h4 h5]
            cases h6 : pay_match (clean raw) with
            | some p =>
              obtain ⟨dt, amt⟩ := p
              have hp := payBranch_instOk (clean raw) dt amt st ry rm
              refine ⟨hp.1, ?_⟩
              rw [show ((1, payBranch (clean raw) dt amt st ry rm) :
                Nat × List Row × St).2.2.iofPostings =
                (payBranch (clean raw) dt amt st ry rm).2.iofPostings from rfl,
                hp.2]
              exact hst
            | none =>
              simp only
              split
              · have hd := date_branch_instOk (clean raw) st ry rm
                refine ⟨hd.1, ?_⟩
                rw [show ((1, date_branch (clean raw) st ry rm) :
                  Nat × List Row × St).2.2.iofPostings =
                  (date_branch (clean raw) st ry rm).2.iofPostings from rfl,
                  hd.2]
                exact hst
              · split
                · refine ⟨by simp, ?_⟩
                  unfold iofBranch
                  cases h8 : re_brl_search (clean raw) with
                  | none => exact hst
                  | some mv =>
                    simp only
                    intro x hx
                    rcases List.mem_append.mp hx with hx1 | hx2
                    · exact hst x hx1
                    · rw [List.mem_singleton.mp hx2]
                      exact instOk_build_none _ _ _ _ _ _ _ _ _ _
                · split
                  · refine ⟨?_, hst⟩
                    unfold interestBranch
                    cases h9 : re_brl_search (clean raw) with
                    | none => simp
                    | some mv =>
                      simp only
                      split
                      · intro x hx
                        rw [List.mem_singleton.mp hx]
                        exact instOk_build_none _ _ _ _ _ _ _ _ _ _
                      · simp
                  · exact ⟨by simp, hst⟩

/-- Installment well-formedness is preserved by the whole loop. -/
theorem parseLoopGo_instOk (ry rm : Nat) : ∀ (fuel : Nat) (lines : List String)
    (st : St), (∀ r ∈ st.iofPostings, instOk r) →
    (∀ r ∈ (parseLoopGo fuel lines st ry rm).1, instOk r) ∧
    (∀ r ∈ (parseLoopGo fuel lines st ry rm).2.iofPostings, instOk r) := by
  intro fuel
  induction fuel with
  | zero =>
    intro lines st hst
    exact ⟨by simp [parseLoopGo], by simpa [parseLoopGo] using hst⟩
  | succ n ih =>
    intro lines st hst
    cases lines with
    | nil => exact ⟨by simp [parseLoopGo], by simpa [parseLoopGo] using hst⟩
    | cons raw rest =>
      have hstep := parseStep_instOk raw rest st ry rm hst
      have hrec := ih (rest.drop ((parseStep raw rest st ry rm).1 - 1))
        (parseStep raw rest st ry rm).2.2 hstep.2
      constructor
      · intro r hr
        simp only [parseLoopGo, List.mem_append] at hr
        rcases hr with hr | hr
        · exact hstep.1 r hr
        · exact hrec.1 r hr
      · intro r hr
        simp only [parseLoopGo] at hr
        exact hrec.2 r hr

/-- Claim C5, counterexample: a line whose extracted installment has
`seq > tot` is not always rejected — when the total parses as zero, Python's
truthiness test skips the check and the transaction is kept with
`installment_seq = 5 > installment_tot = 0` in the output. -/
theorem c5_counterexample :
    (parse_txt ["10/04 COMPRA 5/0 30,00"] 2025 4).map
      (fun r => (r.installment_seq, r.installment_tot)) = [(some 5, some 0)] ∧
    ((parse_txt ["10/04 COMPRA 5/0 30,00"] 2025 4).all
      (fun r => match r.installment_seq, r.installment_tot with
        | some s, some t => decide (s ≤ t)
        | _, _ => true)) = false := by decide

/-- Claim C5, amended: every output transaction with both installment fields
set satisfies `seq ≤ tot` provided the total is nonzero (a zero total, which
Python's `if tot and seq` treats as falsy, escapes the check); and a line
whose extracted installment has nonzero fields with `seq > tot` is rejected
entirely by the domestic branch, emitting no transaction. -/
theorem c5_installment_invariant :
    (∀ (lines : List String) (ry rm : Nat) (r : Row), r ∈ parse_txt lines ry rm →
      ∀ s t : Nat, r.installment_seq = some s → r.installment_tot = some t →
      1 ≤ t → s ≤ t) ∧
    (∀ (line : String) (st : St) (ry rm : Nat) (dt desc amtStr : String)
       (s t : Nat), re_dom line = some (dt, desc, amtStr) →
      installments desc = (some s, some t) → 1 ≤ t → t < s →
      (date_branch line st ry rm).1 = []) := by
  constructor
  · intro lines ry rm r hr s t hs ht hpos
    unfold parse_txt at hr
    simp only [List.mem_filter, List.mem_append] at hr
    have hloop := parseLoopGo_instOk ry rm lines.length lines st0 (by simp [st0])
    rcases hr.1 with hm | hm
    · exact hloop.1 r hm s t hs ht hpos
    · exact hloop.2 r hm s t hs ht hpos
  · intro line st ry rm dt desc amtStr s t hdom hinst hpos hgt
    unfold date_branch
    rw [hdom]
    simp only [hinst]
    rw [if_pos (by simp only [Bool.and_eq_true, decide_eq_true_eq, ne_eq]; omega)]

/-- Claim C5, witness: a well-formed installment line flows through the
invariant — the emitted row has `seq = 2 ≤ 5 = tot`. -/
theorem c5_installment_invariant_witness :
    ((parse_txt ["10/04 COMPRA 2/5 30,00"] 2025 4).headD
        (build "" "" "" 0 "" 0 0 noExtras)).installment_seq = some 2 ∧
    ((parse_txt ["10/04 COMPRA 2/5 30,00"] 2025 4).headD
        (build "" "" "" 0 "" 0 0 noExtras)).installment_tot = some 5 ∧
    2 ≤ 5 := by
  refine ⟨by decide, by decide, ?_⟩
  exact c5_installment_invariant.1 ["10/04 COMPRA 2/5 30,00"] 2025 4
    ((parse_txt ["10/04 COMPRA 2/5 30,00"] 2025 4).headD
      (build "" "" "" 0 "" 0 0 noExtras))
    (by decide) 2 5 (by decide) (by decide) (by decide)

end Codex
